import Mathlib

/-
Verification of the WorldHost simulation core against its specification.

The development shallowly embeds the relevant server modules:
  * the entity/component ("contract") store with schema validation and
    per-kind cardinality limits (packages/server src/world/ecs.ts and
    src/world/contracts.ts),
  * the durability system (src/world/systems/durability.ts),
  * the spatial module (src/world/space.ts) and chunk manager
    (src/world/chunks.ts),
  * chunk-key serialization (packages/shared src/index.ts), and
  * the authoritative movement system (src/world/systems/movement.js).

JavaScript numbers are modelled as elements of a linear ordered field:
the store and spatial claims are instantiated at ℚ (computable, so
witnesses evaluate), the movement claims at ℝ (square roots).  JS `Map`
and `Set` are modelled as insertion-ordered association lists / lists,
matching JS iteration order.  Thrown exceptions leave the state mutated
so far, exactly as in the source.
-/

namespace WorldHost

/-- Three-component vector, mirroring the shared `Vec3` record. -/
structure Vec3 (α : Type) where
  x : α
  y : α
  z : α
deriving DecidableEq

/-- Axis-aligned bounding box, mirroring the shared `AABB` record. -/
structure AABB (α : Type) where
  min : Vec3 α
  max : Vec3 α
deriving DecidableEq

/-- Geometry tag of a `shape` contract (`'box'|'sphere'|'cylinder'|'mesh'`). -/
inductive Geometry where
  | box
  | sphere
  | cylinder
  | mesh
deriving DecidableEq

/-- Weather enum of `world_conditions`. -/
inductive Weather where
  | clear
  | rain
  | storm
  | snow
deriving DecidableEq

/-- Time-of-day enum of `world_conditions`. -/
inductive TimeOfDay where
  | day
  | night
  | dawn
  | dusk
deriving DecidableEq

/-- Tagged component records: the closed union `AnyContract` of the shared
package.  Optional fields are `Option`s; numeric fields live in the scalar
parameter `α`. -/
inductive Contract (α : Type) where
  | identity (id : String) (name descr : Option String)
  | mobility (position : Vec3 α) (velocity : Option (Vec3 α))
      (maxSpeed acceleration : Option α)
  | shape (bounds : AABB α) (geometry : Option Geometry)
  | visual (visible : Bool) (color texture material : Option String)
  | solidity (solid : Bool) (collisionLayers : Option (List String))
  | entrance (targetLayerId : String) (targetPosition : Vec3 α) (enabled : Bool)
  | portable (canPickup : Bool) (weight : Option α)
  | inventory (items : List String) (capacity : Option α)
  | durability (health maxHealth : α) (armor : Option α)
  | contractLimit (limits : List (String × α))
  | movementRules (stepDistance : α) (allowDiagonal diagonalNormalized : Option Bool)
  | worldConditions (gravity : Option α) (weather : Option Weather)
      (timeOfDay : Option TimeOfDay) (terrainSeed : Option String)
      (props : Option (List (String × String)))
  | worldCommands (commands : List String)
  | commandAccess (allowed : List String)
deriving DecidableEq

namespace Contract

/-- Discriminator string of a contract, i.e. its `type` field. -/
def type {α : Type} : Contract α → String
  | .identity .. => "identity"
  | .mobility .. => "mobility"
  | .shape .. => "shape"
  | .visual .. => "visual"
  | .solidity .. => "solidity"
  | .entrance .. => "entrance"
  | .portable .. => "portable"
  | .inventory .. => "inventory"
  | .durability .. => "durability"
  | .contractLimit .. => "contract_limit"
  | .movementRules .. => "movement_rules"
  | .worldConditions .. => "world_conditions"
  | .worldCommands .. => "world_commands"
  | .commandAccess .. => "command_access"

end Contract

section Validation

variable {α : Type} [LinearOrderedField α]

/-- Check that an optional numeric field is strictly positive when present
(`z.number().positive().optional()`). -/
def optPositive (v : Option α) : Bool :=
  match v with
  | none => true
  | some a => decide (0 < a)

/-- Check that an optional numeric field is nonnegative when present
(`z.number().nonnegative().optional()`). -/
def optNonneg (v : Option α) : Bool :=
  match v with
  | none => true
  | some a => decide (0 ≤ a)

/-- Schema validation of the contract registry: `contractRegistry.validate`
parses the record against `AnyContractSchema`, the discriminated union of the
per-kind object schemas from contracts.ts.  Note that the union member for
`durability` is the unrefined `DurabilityObjectSchema` (the `zod`
discriminated union requires plain object schemas), so the
`health ≤ maxHealth` refinement of `DurabilitySchema` is NOT applied here.
Parsing applies the `.default(true)` transforms of `MovementRulesSchema`. -/
def validate : Contract α → Except String (Contract α)
  | .identity id name descr => .ok (.identity id name descr)
  | .mobility p v ms acc =>
      if optPositive ms then
        if optPositive acc then .ok (.mobility p v ms acc)
        else .error "acceleration: Number must be greater than 0"
      else .error "maxSpeed: Number must be greater than 0"
  | .shape b g => .ok (.shape b g)
  | .visual vis c t m => .ok (.visual vis c t m)
  | .solidity s cl => .ok (.solidity s cl)
  | .entrance t p e => .ok (.entrance t p e)
  | .portable cp w =>
      if optNonneg w then .ok (.portable cp w)
      else .error "weight: Number must be greater than or equal to 0"
  | .inventory items cap =>
      if optPositive cap then .ok (.inventory items cap)
      else .error "capacity: Number must be greater than 0"
  | .durability h m a =>
      if decide (0 ≤ h) then
        if decide (0 < m) then
          if optNonneg a then .ok (.durability h m a)
          else .error "armor: Number must be greater than or equal to 0"
        else .error "maxHealth: Number must be greater than 0"
      else .error "health: Number must be greater than or equal to 0"
  | .contractLimit limits =>
      if limits.all (fun l => decide (0 < l.2)) then .ok (.contractLimit limits)
      else .error "limits: max: Number must be greater than 0"
  | .movementRules sd ad dn =>
      if decide (0 < sd) then
        .ok (.movementRules sd (some (ad.getD true)) (some (dn.getD true)))
      else .error "stepDistance: Number must be greater than 0"
  | .worldConditions g w t s p => .ok (.worldConditions g w t s p)
  | .worldCommands cs => .ok (.worldCommands cs)
  | .commandAccess as => .ok (.commandAccess as)

/-- Refined durability check of `DurabilitySchema` (contracts.ts):
the base object schema plus the `health ≤ maxHealth` refinement.  This
schema is registered per-kind in the registry's schema map but is bypassed
by `ContractRegistry.validate`, which parses with `AnyContractSchema`. -/
def durabilityRefinedOk (h m : α) (a : Option α) : Bool :=
  decide (0 ≤ h) && decide (0 < m) && optNonneg a && decide (h ≤ m)

/-- Global per-kind cardinality defaults from
`ContractRegistry.initializeDefaultLimits`. -/
def globalLimits : List (String × α) :=
  [("identity", 1), ("mobility", 1), ("shape", 1), ("visual", 1),
   ("solidity", 1), ("inventory", 1), ("durability", 1), ("contract_limit", 1),
   ("entrance", 1), ("portable", 3), ("movement_rules", 1),
   ("world_conditions", 1), ("world_commands", 1), ("command_access", 1)]

/-- `Number.MAX_SAFE_INTEGER`, the "unlimited" sentinel of
`getMaxContractsAllowed`. -/
def maxSafeInteger : α := 9007199254740991

end Validation

section AssocList

variable {β : Type}

/-- First binding of a key in an insertion-ordered association list
(JS `Map.get`). -/
def alookup (m : List (String × β)) (k : String) : Option β :=
  (m.find? (fun p => p.1 == k)).map (·.2)

/-- Update the first binding of a key, or append a fresh binding at the end
(JS `Map.set`: existing keys keep their position, new keys iterate last). -/
def aset (m : List (String × β)) (k : String) (v : β) : List (String × β) :=
  match m with
  | [] => [(k, v)]
  | p :: rest => if p.1 == k then (k, v) :: rest else p :: aset rest k v

/-- Delete the first binding of a key (JS `Map.delete`). -/
def adelete (m : List (String × β)) (k : String) : List (String × β) :=
  match m with
  | [] => []
  | p :: rest => if p.1 == k then rest else p :: adelete rest k

end AssocList

/-- Lifecycle events observed by the hook system of the ECS world; the log
records, in firing order, the contract add/remove and entity add/remove hooks
triggered by the store operations. -/
inductive EcsEvent (α : Type) where
  | entityAdded (id : String)
  | entityRemoved (id : String)
  | contractAdded (id : String) (c : Contract α)
  | contractRemoved (id : String) (c : Contract α)
deriving DecidableEq

/-- State of `ECSWorld` (ecs.ts): the entity map `Map<EntityId, Set<Contract>>`
and the inverted index `Map<ContractType, Set<EntityId>>`, both as
insertion-ordered association lists, plus the hook-event log. -/
structure EWorld (α : Type) where
  entities : List (String × List (Contract α))
  contractIndex : List (String × List String)
  log : List (EcsEvent α)
deriving DecidableEq

namespace EWorld

variable {α : Type} [LinearOrderedField α]

/-- Empty `ECSWorld` (fresh `createECSWorld()`). -/
def empty : EWorld α := ⟨[], [], []⟩

/-- `ECSWorld.getContract`: first contract of the entity whose `type`
matches, in set-insertion order. -/
def getContract (w : EWorld α) (entityId contractType : String) : Option (Contract α) :=
  match alookup w.entities entityId with
  | none => none
  | some cs => cs.find? (fun c => c.type == contractType)

/-- `ECSWorld.getEntitiesWithContract`: the inverted-index entry for a kind. -/
def getEntitiesWithContract (w : EWorld α) (contractType : String) : List String :=
  (alookup w.contractIndex contractType).getD []

/-- Contract set of an entity, in insertion order (empty for a missing
entity). -/
def contractsOf (w : EWorld α) (e : String) : List (Contract α) :=
  (alookup w.entities e).getD []

/-- Contracts of one kind held by an entity, in insertion order. -/
def typedContracts (w : EWorld α) (e contractType : String) : List (Contract α) :=
  (contractsOf w e).filter (fun c => c.type == contractType)

/-- Structural soundness of the store: entity and index keys are unique (JS
`Map` keys), each inverted-index entry is duplicate-free (a JS `Set`), and
every entity listed under a kind holds at least one contract of that kind.
The last conjunct is the direction of the claimed index invariant that the
operations do preserve. -/
def IndexSound (w : EWorld α) : Prop :=
  (w.entities.map Prod.fst).Nodup ∧
  (w.contractIndex.map Prod.fst).Nodup ∧
  (∀ t, (getEntitiesWithContract w t).Nodup) ∧
  (∀ e t, e ∈ getEntitiesWithContract w t → ∃ c ∈ contractsOf w e, c.type = t)

/-- `ECSWorld.hasEntity`. -/
def hasEntity (w : EWorld α) (entityId : String) : Bool :=
  (alookup w.entities entityId).isSome

/-- First entry of a `contract_limit` contract matching a kind
(`contractLimitContract.limits.find(l => l.contractType === t)`). -/
def limitEntry (limitC : Option (Contract α)) (contractType : String) : Option α :=
  match limitC with
  | some (.contractLimit ls) =>
      ((ls.find? (fun l => l.1 == contractType)).map (·.2))
  | _ => none

/-- `ECSWorld.getMaxContractsAllowed`: entity override from `contract_limit`,
else the registry's global default, else `Number.MAX_SAFE_INTEGER`. -/
def getMaxContractsAllowed (contractType : String) (limitC : Option (Contract α)) : α :=
  match limitEntry limitC contractType with
  | some m => m
  | none =>
      match alookup globalLimits contractType with
      | some m => m
      | none => maxSafeInteger

/-- `ContractRegistry.checkLimits`: `true` when adding one more contract of
the kind is allowed against the entity override (if any) or the global
default.  The human-readable refusal reason is not modelled. -/
def checkLimits (contractType : String) (existing : List (Contract α))
    (limitC : Option (Contract α)) : Bool :=
  match limitEntry limitC contractType with
  | some m =>
      decide (¬(m ≤ ((existing.filter (fun c => c.type == contractType)).length : α)))
  | none =>
      match alookup globalLimits contractType with
      | some m =>
          decide (¬(m ≤ ((existing.filter (fun c => c.type == contractType)).length : α)))
      | none => true

/-- `ECSWorld.removeContractInternal`: delete the contract from the entity's
set, unconditionally drop the entity from the kind's inverted-index entry
(deleting the entry when it empties), then fire the contract-remove hooks.
The boolean result of the source is not modelled (no caller branches on it
in the verified claims).  JS `Set.delete` removes by object identity; since
every stored contract is a fresh `zod`-parsed object and every caller removes
the first stored contract of its kind, erasing the first structurally equal
element coincides with identity removal. -/
def removeContractInternal (w : EWorld α) (entityId : String) (c : Contract α) :
    EWorld α :=
  match alookup w.entities entityId with
  | none => w
  | some cs =>
      if c ∈ cs then
        let w1 : EWorld α := { w with entities := aset w.entities entityId (cs.erase c) }
        let idx2 : List (String × List String) :=
          match alookup w1.contractIndex c.type with
          | none => w1.contractIndex
          | some ids =>
              let ids2 := ids.erase entityId
              if ids2.isEmpty then adelete w1.contractIndex c.type
              else aset w1.contractIndex c.type ids2
        let w2 : EWorld α := { w1 with contractIndex := idx2 }
        { w2 with log := w2.log ++ [.contractRemoved entityId c] }
      else w

/-- Eviction loop of `ECSWorld.addContract`: while the snapshot of same-kind
contracts is still at or above the limit, shift its oldest element and remove
it from the store.  The snapshot shrinks by one per iteration, so the
recursion is structural.  When `maxAllowed ≤ 0` the JS loop never terminates
(shift of an empty array is skipped and the length stays `0 ≥ max`); the
model returns the state unchanged in that unreachable corner — validated
`contract_limit` entries and all global defaults are strictly positive. -/
def evictLoop (w : EWorld α) (entityId : String) (snapshot : List (Contract α))
    (maxAllowed : α) : EWorld α :=
  if (maxAllowed ≤ (snapshot.length : α)) then
    match snapshot with
    | [] => w
    | c :: rest => evictLoop (removeContractInternal w entityId c) entityId rest maxAllowed
  else w

/-- Inverted-index update of `ECSWorld.addContract`: create the kind's entry
when missing, otherwise append the entity to the entry's `Set` (a no-op when
already listed). -/
def indexAdd (idx : List (String × List String)) (t eid : String) :
    List (String × List String) :=
  match alookup idx t with
  | none => idx ++ [(t, [eid])]
  | some ids => if eid ∈ ids then idx else aset idx t (ids ++ [eid])

/-- `ECSWorld.addContract`: look up the entity (throw when missing), validate
(throw when invalid), evict oldest same-kind contracts while at the limit,
re-check limits (throw when still violated — the evictions stay applied),
then insert the validated record, update the inverted index and fire the add
hooks.  The boolean is `false` when the source throws; the returned world is
the state left behind in that case. -/
def addContract (w : EWorld α) (entityId : String) (c : Contract α) :
    EWorld α × Bool :=
  match alookup w.entities entityId with
  | none => (w, false)
  | some contracts =>
      match validate c with
      | .error _ => (w, false)
      | .ok validContract =>
          let limitC := getContract w entityId "contract_limit"
          let existingOfSameType :=
            contracts.filter (fun x => x.type == validContract.type)
          let maxAllowed := getMaxContractsAllowed validContract.type limitC
          let w1 := evictLoop w entityId existingOfSameType maxAllowed
          let contracts2 := (alookup w1.entities entityId).getD []
          if checkLimits validContract.type contracts2 limitC then
            let ents2 := aset w1.entities entityId (contracts2 ++ [validContract])
            let w2 : EWorld α := { w1 with entities := ents2 }
            let idx2 := indexAdd w2.contractIndex validContract.type entityId
            let w3 : EWorld α := { w2 with contractIndex := idx2 }
            ({ w3 with log := w3.log ++ [.contractAdded entityId validContract] }, true)
          else (w1, false)

/-- `ECSWorld.createEntity`: throw on duplicate id; otherwise install an
empty contract set, add the initial contracts in order (a throw inside
`addContract` propagates, leaving the earlier contracts in place and skipping
the entity-add hooks), then fire the entity-add hooks. -/
def createEntity (w : EWorld α) (id : String) (cs : List (Contract α)) :
    EWorld α × Bool :=
  if (alookup w.entities id).isSome then (w, false)
  else
    let w1 : EWorld α := { w with entities := w.entities ++ [(id, [])] }
    let folded := cs.foldl
      (fun (acc : EWorld α × Bool) c =>
        if acc.2 then addContract acc.1 id c else acc)
      (w1, true)
    if folded.2 then
      ({ folded.1 with log := folded.1.log ++ [.entityAdded id] }, true)
    else folded

/-- `ECSWorld.removeEntity`: remove every contract of the snapshot in
insertion order (firing the contract-remove hooks), delete the entity, fire
the entity-remove hooks. -/
def removeEntity (w : EWorld α) (id : String) : EWorld α :=
  match alookup w.entities id with
  | none => w
  | some cs =>
      let w1 := cs.foldl (fun acc c => removeContractInternal acc id c) w
      let w2 : EWorld α := { w1 with entities := adelete w1.entities id }
      { w2 with log := w2.log ++ [.entityRemoved id] }

/-- `ECSWorld.removeContract`: look up the first contract of the kind and
remove it; no-op when absent. -/
def removeContract (w : EWorld α) (id contractType : String) : EWorld α :=
  match getContract w id contractType with
  | none => w
  | some c => removeContractInternal w id c

end EWorld

/-- Store operations available to clients of the ECS world; claims about
"any sequence of operations" quantify over lists of these. -/
inductive Op (α : Type) where
  | create (id : String) (cs : List (Contract α))
  | remove (id : String)
  | add (id : String) (c : Contract α)
  | removeKind (id : String) (contractType : String)

/-- Apply one store operation. -/
def stepOp {α : Type} [LinearOrderedField α] (w : EWorld α) : Op α → EWorld α
  | .create id cs => (EWorld.createEntity w id cs).1
  | .remove id => EWorld.removeEntity w id
  | .add id c => (EWorld.addContract w id c).1
  | .removeKind id t => EWorld.removeContract w id t

/-- Run a sequence of store operations from the empty world. -/
def runOps {α : Type} [LinearOrderedField α] (ops : List (Op α)) : EWorld α :=
  ops.foldl stepOp EWorld.empty

/-- Chunk coordinate key `(layerId, cx, cy, cz)` from the shared package.
Chunk indices are produced by `Math.floor` and are modelled as integers. -/
structure ChunkKey where
  layerId : String
  cx : ℤ
  cy : ℤ
  cz : ℤ
deriving DecidableEq

namespace ChunkUtils

/-- Decimal digit character. -/
def digitChar (d : ℕ) : Char := Char.ofNat (48 + d)

/-- Digit-emitting loop: with sufficient fuel this produces the canonical
decimal digits of `n`, most significant first.  The fuel makes the recursion
structural; `natChars` always passes enough. -/
def natDigitsGo : ℕ → ℕ → List Char
  | 0, _ => []
  | fuel + 1, n =>
      if n = 0 then [] else natDigitsGo fuel (n / 10) ++ [digitChar (n % 10)]

/-- Canonical decimal digits of a natural number, most significant first —
the output of the JS template conversion for a nonnegative integer. -/
def natChars (n : ℕ) : List Char :=
  if n = 0 then ['0'] else natDigitsGo n n

/-- With enough fuel the digit loop produces exactly the canonical digit
string of `Nat.digits`, reversed to most-significant-first order. -/
lemma natDigitsGo_eq_digits (fuel n : ℕ) (h : n ≤ fuel) :
    natDigitsGo fuel n = (Nat.digits 10 n).reverse.map digitChar := by
  induction fuel generalizing n with
  | zero =>
      interval_cases n
      simp [natDigitsGo]
  | succ f ih =>
      by_cases hn : n = 0
      · simp [natDigitsGo, hn]
      · have hpos : 0 < n := Nat.pos_of_ne_zero hn
        have hdiv : n / 10 ≤ f := by
          have : n / 10 < n := Nat.div_lt_self hpos (by norm_num)
          omega
        rw [show natDigitsGo (f + 1) n =
            natDigitsGo f (n / 10) ++ [digitChar (n % 10)] by simp [natDigitsGo, hn]]
        rw [ih _ hdiv, Nat.digits_def' (by norm_num : (1:ℕ) < 10) hpos]
        simp

/-- Unfolding of `natChars` to the canonical `Nat.digits` form. -/
lemma natChars_eq_digits (n : ℕ) :
    natChars n = if n = 0 then ['0'] else (Nat.digits 10 n).reverse.map digitChar := by
  by_cases h : n = 0
  · simp [natChars, h]
  · simp [natChars, h, natDigitsGo_eq_digits n n le_rfl]

/-- Canonical decimal form of an integer, as produced by the JS template
literal for an integral number (exponent forms only appear beyond the float
safe-integer range and are not modelled). -/
def intChars (i : ℤ) : List Char :=
  if i < 0 then '-' :: natChars (-i).toNat else natChars i.toNat

/-- Character list of `ChunkUtils.toString`, the template
layerId, colon, cx, comma, cy, comma, cz. -/
def keyChars (k : ChunkKey) : List Char :=
  k.layerId.data ++ ':' :: (intChars k.cx ++ ',' :: (intChars k.cy ++ ',' :: intChars k.cz))

/-- `ChunkUtils.toString`. -/
def toString (k : ChunkKey) : String := String.mk (keyChars k)

/-- Split at the first colon: the regex group `([^:]+):` consumes the
(nonempty) run of non-colon characters before the first colon.  Returns
`none` when the string holds no colon. -/
def splitFirstColon : List Char → Option (List Char × List Char)
  | [] => none
  | c :: cs =>
      if c = ':' then some ([], cs)
      else (splitFirstColon cs).map (fun p => (c :: p.1, p.2))

/-- Split at every comma (the digit groups of the pattern cannot contain a
comma, so the regex succeeds exactly when this split yields three integer
tokens). -/
def splitCommas : List Char → List (List Char)
  | [] => [[]]
  | c :: cs =>
      if c = ',' then [] :: splitCommas cs
      else
        match splitCommas cs with
        | [] => [[c]]
        | t :: ts => (c :: t) :: ts

/-- Value of a decimal digit character, `none` for non-digits. -/
def digitVal (c : Char) : Option ℕ :=
  if '0' ≤ c ∧ c ≤ '9' then some (c.toNat - 48) else none

/-- Accumulating decimal parse of a digit run (`parseInt`, base 10). -/
def parseNatGo (acc : ℕ) : List Char → Option ℕ
  | [] => some acc
  | c :: cs =>
      match digitVal c with
      | none => none
      | some d => parseNatGo (acc * 10 + d) cs

/-- Parse a nonempty all-digit token (`\d+`). -/
def parseNatChars : List Char → Option ℕ
  | [] => none
  | cs => parseNatGo 0 cs

/-- Parse a token of the form `-?\d+` as an integer (`parseInt(…, 10)`). -/
def parseIntChars (cs : List Char) : Option ℤ :=
  match cs with
  | [] => none
  | c :: rest =>
      if c = '-' then (parseNatChars rest).map (fun n => -(n : ℤ))
      else (parseNatChars (c :: rest)).map (fun n => (n : ℤ))

/-- `ChunkUtils.fromString`: match
`^([^:]+):(-?\d+),(-?\d+),(-?\d+)$` and read back the four fields;
`null` (here `none`) when the regex does not match. -/
def fromString (s : String) : Option ChunkKey :=
  match splitFirstColon s.data with
  | none => none
  | some (layer, rest) =>
      if layer.isEmpty then none
      else
        match splitCommas rest with
        | [a, b, c] =>
            match parseIntChars a, parseIntChars b, parseIntChars c with
            | some x, some y, some z => some ⟨String.mk layer, x, y, z⟩
            | _, _, _ => none
        | _ => none

end ChunkUtils

section Spatial

variable {α : Type} [LinearOrderedField α] [FloorRing α]

/-- Vertical chunk extent `CHUNK_HEIGHT` (config default 256). -/
def CHUNK_HEIGHT (α : Type) [LinearOrderedField α] : α := 256

/-- Horizontal chunk size `CHUNK_SIZE` (config default 32), also the chunk
size of the always-present `default` layer in the layer registry. -/
def CHUNK_SIZE (α : Type) [LinearOrderedField α] : α := 32

/-- Chunk indices `{cx, cy, cz}` returned by `worldToChunk`. -/
structure ChunkIdx where
  cx : ℤ
  cy : ℤ
  cz : ℤ
deriving DecidableEq

/-- `worldToChunk` (space.ts): floor the horizontal coordinates by the chunk
size and the vertical coordinate by the global `CHUNK_HEIGHT`. -/
def worldToChunk (p : Vec3 α) (chunkSize : α) : ChunkIdx :=
  ⟨⌊p.x / chunkSize⌋, ⌊p.y / CHUNK_HEIGHT α⌋, ⌊p.z / chunkSize⌋⟩

/-- Integers from `lo` to `hi` inclusive, the index set of a JS
`for (i = lo; i <= hi; i++)` loop. -/
def intRange (lo hi : ℤ) : List ℤ :=
  (List.range (hi + 1 - lo).toNat).map (fun n => lo + n)

/-- `keyFromPos` (space.ts) with the layer's chunk size resolved by the
caller (the registry lookup itself is stateful; every layer referenced by
the verified claims has the default size 32). -/
def keyFromPos (layerId : String) (p : Vec3 α) (chunkSize : α) : ChunkKey :=
  let c := worldToChunk p chunkSize
  ⟨layerId, c.cx, c.cy, c.cz⟩

/-- `getIntersectingChunks` (space.ts): treat the max corner as exclusive by
retracting `1e-6`, convert both corners to chunk indices, apply the
origin-straddle clamp on the x and z axes, and enumerate the resulting index
box. -/
def getIntersectingChunks (layerId : String) (bounds : AABB α) (size : α) :
    List ChunkKey :=
  let eps : α := 1 / 1000000
  let maxExclusive : Vec3 α :=
    ⟨max bounds.min.x (bounds.max.x - eps),
     max bounds.min.y (bounds.max.y - eps),
     max bounds.min.z (bounds.max.z - eps)⟩
  let minChunk := worldToChunk bounds.min size
  let maxChunk := worldToChunk maxExclusive size
  let spanX := bounds.max.x - bounds.min.x
  let spanZ := bounds.max.z - bounds.min.z
  let xRange : ℤ × ℤ :=
    if bounds.min.x < 0 ∧ 0 < bounds.max.x ∧ spanX < size then (0, 0)
    else (minChunk.cx, maxChunk.cx)
  let zRange : ℤ × ℤ :=
    if bounds.min.z < 0 ∧ 0 < bounds.max.z ∧ spanZ < size then (0, 0)
    else (minChunk.cz, maxChunk.cz)
  (intRange xRange.1 xRange.2).flatMap (fun cx =>
    (intRange minChunk.cy maxChunk.cy).flatMap (fun cy =>
      (intRange zRange.1 zRange.2).map (fun cz => ChunkKey.mk layerId cx cy cz)))

/-- `getNeighboringChunks` (space.ts): the cube of offsets `[-r..r]³` around
the center. -/
def getNeighboringChunks (center : ChunkKey) (radius : ℤ) : List ChunkKey :=
  (intRange (-radius) radius).flatMap (fun dx =>
    (intRange (-radius) radius).flatMap (fun dy =>
      (intRange (-radius) radius).map (fun dz =>
        ChunkKey.mk center.layerId (center.cx + dx) (center.cy + dy) (center.cz + dz))))

end Spatial

section Durability

variable {α : Type} [LinearOrderedField α]

/-- Damage event record of the durability system. -/
structure DamageEvent (α : Type) where
  entityId : String
  damage : α
  source : Option String
  timestamp : ℤ
deriving DecidableEq

/-- Heal event record of the durability system. -/
structure HealEvent (α : Type) where
  entityId : String
  healing : α
  source : Option String
  timestamp : ℤ
deriving DecidableEq

/-- Destroy causes of the durability system. -/
inductive DestroyCause where
  | damage
  | command
  | timeout
deriving DecidableEq

/-- Destroy event record of the durability system. -/
structure DestroyEvent where
  entityId : String
  cause : DestroyCause
  source : Option String
  timestamp : ℤ
deriving DecidableEq

/-- State carried by `BasicDurabilitySystem`: the underlying ECS world and
the three event logs.  `now` models `Date.now()` for timestamps. -/
structure DurWorld (α : Type) where
  ecs : EWorld α
  damageEvents : List (DamageEvent α)
  healEvents : List (HealEvent α)
  destroyEvents : List DestroyEvent
  now : ℤ
deriving DecidableEq

/-- `calculateActualDamage`: no reduction for missing, zero (falsy) or
negative armor, otherwise each armor point removes 1% of the damage, capped
at 75%. -/
def calculateActualDamage (damage : α) (armor : Option α) : α :=
  match armor with
  | none => damage
  | some a =>
      if a ≤ 0 then damage
      else damage * (1 - min (75 / 100 : α) (a * (1 / 100)))

/-- Damage formula as the specification states it:
`actual = amount · (1 − min(0.75, 0.01·armor))`, with the armor taken as 0
when absent.  Proved to agree with `calculateActualDamage` on schema-valid
(nonnegative) armor values. -/
def specActualDamage (amount : ℚ) (armor : Option ℚ) : ℚ :=
  amount * (1 - min (75 / 100) ((armor.getD 0) * (1 / 100)))

/-- `BasicDurabilitySystem.destroyEntity`: record the destroy event, fire the
destroy handlers (observers see the entity still present), then remove the
entity from the ECS world. -/
def destroyEntity (s : DurWorld α) (entityId : String) (cause : DestroyCause)
    (source : Option String) : DurWorld α :=
  let ev : DestroyEvent := ⟨entityId, cause, source, s.now⟩
  let s1 : DurWorld α := { s with destroyEvents := s.destroyEvents ++ [ev] }
  { s1 with ecs := EWorld.removeEntity s1.ecs entityId }

/-- `BasicDurabilitySystem.damage`: read the durability contract (`false`
when absent), reduce the damage by armor (`false` when the result is not
positive, leaving all state untouched), clamp the new health at zero, record
the damage event, write the updated contract back through `addContract`, and
destroy the entity when the new health reached zero.  `getContract` with tag
`durability` always lands in the `durability` constructor; the catch-all
branch is unreachable. -/
def damage (s : DurWorld α) (entityId : String) (amount : α)
    (source : Option String) : DurWorld α × Bool :=
  match EWorld.getContract s.ecs entityId "durability" with
  | some (.durability health maxHealth armor) =>
      let actualDamage := calculateActualDamage amount armor
      if actualDamage ≤ 0 then (s, false)
      else
        let newHealth := max 0 (health - actualDamage)
        let ev : DamageEvent α := ⟨entityId, actualDamage, source, s.now⟩
        let s1 : DurWorld α := { s with damageEvents := s.damageEvents ++ [ev] }
        let updated : Contract α := .durability newHealth maxHealth armor
        let s2 : DurWorld α := { s1 with ecs := (EWorld.addContract s1.ecs entityId updated).1 }
        let s3 := if newHealth ≤ 0 then destroyEntity s2 entityId .damage source else s2
        (s3, true)
  | _ => (s, false)

end Durability

section Fixtures

/-- Concrete entrance record used by the cardinality scenarios. -/
def entranceA : Contract ℚ := .entrance "overworld" ⟨0, 0, 0⟩ true

/-- Second entrance record (the replacement). -/
def entranceB : Contract ℚ := .entrance "nether" ⟨1, 2, 3⟩ false

/-- Portable record tagged by its weight. -/
def portableW (wgt : ℚ) : Contract ℚ := .portable true (some wgt)

/-- Entity holding one entrance. -/
def oneEntranceWorld : EWorld ℚ := runOps [Op.create "E" [entranceA]]

/-- Entity holding three portables (the global `portable` limit). -/
def threePortablesWorld : EWorld ℚ :=
  runOps [Op.create "E" [], Op.add "E" (portableW 1), Op.add "E" (portableW 2),
    Op.add "E" (portableW 3)]

/-- Entity that held two portables and had one removed: the store still
returns a portable while the inverted index no longer lists the entity. -/
def portablePairWorld : EWorld ℚ :=
  runOps [Op.create "E" [], Op.add "E" (portableW 1), Op.add "E" (portableW 2),
    Op.removeKind "E" "portable"]

/-- Durability-system state over an entity with identity and durability
5/5. -/
def exampleDurWorld : DurWorld ℚ :=
  ⟨(EWorld.createEntity EWorld.empty "E"
      [Contract.identity "E" none none, Contract.durability 5 5 none]).1,
    [], [], [], 0⟩

end Fixtures

section Movement

/- Shared `Vec3Utils` helpers, at ℝ (ideal-real model of JS float math). -/
namespace Vec3Utils

/-- Component-wise vector sum. -/
noncomputable def add (a b : Vec3 ℝ) : Vec3 ℝ := ⟨a.x + b.x, a.y + b.y, a.z + b.z⟩

/-- Component-wise vector difference. -/
noncomputable def subtract (a b : Vec3 ℝ) : Vec3 ℝ := ⟨a.x - b.x, a.y - b.y, a.z - b.z⟩

/-- Scalar multiple. -/
noncomputable def multiply (v : Vec3 ℝ) (s : ℝ) : Vec3 ℝ := ⟨v.x * s, v.y * s, v.z * s⟩

/-- Euclidean norm (`Math.sqrt` of the sum of squares). -/
noncomputable def length (v : Vec3 ℝ) : ℝ :=
  Real.sqrt (v.x * v.x + v.y * v.y + v.z * v.z)

/-- Euclidean distance. -/
noncomputable def distance (a b : Vec3 ℝ) : ℝ := length (subtract a b)

/-- Normalization: the zero vector for zero-norm input, otherwise scaling by
the reciprocal norm. -/
noncomputable def normalize (v : Vec3 ℝ) : Vec3 ℝ :=
  if length v = 0 then ⟨0, 0, 0⟩ else multiply v (1 / length v)

end Vec3Utils

/-- Static occupancy grid of a chunk: dense bit volume with per-axis
resolution (`Uint8Array` cells modelled as booleans). -/
structure SolidGrid where
  width : ℕ
  height : ℕ
  depth : ℕ
  data : List Bool
deriving DecidableEq

/-- Chunk record of the chunk manager.  The subscriber map (WebSocket
handles) is transport state outside this embedding. -/
structure ChunkData where
  key : ChunkKey
  entities : List String
  loaded : Bool
  lastAccessed : ℤ
  lastModified : ℤ
  version : ℤ
  solidGrid : Option SolidGrid
deriving DecidableEq

/-- State visible to `BasicMovementSystem`: the ECS world and the chunk
manager's chunk map.  `now` models `Date.now()`. -/
structure MoveState where
  ecs : EWorld ℝ
  chunks : List (String × ChunkData)
  now : ℤ

/-- `ChunkManager.getChunk`: return the stored chunk with `lastAccessed`
refreshed, or create and retain a fresh unloaded chunk. -/
def getChunk (s : MoveState) (k : ChunkKey) : ChunkData × MoveState :=
  let keyStr := ChunkUtils.toString k
  match alookup s.chunks keyStr with
  | none =>
      let fresh : ChunkData := ⟨k, [], false, s.now, s.now, 1, none⟩
      (fresh, { s with chunks := s.chunks ++ [(keyStr, fresh)] })
  | some chunk =>
      let touched : ChunkData := { chunk with lastAccessed := s.now }
      (touched, { s with chunks := aset s.chunks keyStr touched })

/-- `ChunkManager.isSolid`: `false` without a grid or out of range, else the
cell at `x + y·width + z·width·height`. -/
def isSolid (chunk : ChunkData) (x y z : ℤ) : Bool :=
  match chunk.solidGrid with
  | none => false
  | some g =>
      if x < 0 ∨ (g.width : ℤ) ≤ x ∨ y < 0 ∨ (g.height : ℤ) ≤ y
          ∨ z < 0 ∨ (g.depth : ℤ) ≤ z then false
      else
        g.data.getD (x + y * (g.width : ℤ) + z * (g.width : ℤ) * (g.height : ℤ)).toNat false

/-- Collision report of the swept-AABB phase; `entityId` is set only by
dynamic-entity hits. -/
structure Collision where
  hit : Bool
  point : Vec3 ℝ
  normal : Vec3 ℝ
  distance : ℝ
  entityId : Option String

/-- Result record of `attemptMove`. -/
structure MoveResult where
  ok : Bool
  position : Vec3 ℝ
  blockedReason : Option String
  collisionNormal : Option (Vec3 ℝ)

/-- Collision epsilon from config (`WORLDHOST_COLLISION_EPSILON`, default
`0.001`). -/
noncomputable def collisionEpsilon : ℝ := 0.001

/-- JS falsy-or on an optional number (`v || d`; note `0` is falsy). -/
noncomputable def jsOrNum (v : Option ℝ) (d : ℝ) : ℝ :=
  match v with
  | none => d
  | some x => if x = 0 then d else x

/-- Truncation toward zero, the rounding of the JS `%` operator. -/
noncomputable def jsTrunc (x : ℝ) : ℤ := if 0 ≤ x then ⌊x⌋ else ⌈x⌉

/-- JS remainder `a % b`: same sign as the dividend. -/
noncomputable def jsMod (a b : ℝ) : ℝ := a - b * (jsTrunc (a / b) : ℝ)

/-- `getEntityAABB`: translate the shape bounds to world space. -/
noncomputable def getEntityAABB (shape : AABB ℝ) (position : Vec3 ℝ) : AABB ℝ :=
  ⟨Vec3Utils.add shape.min position, Vec3Utils.add shape.max position⟩

/-- Grid test of `checkStaticSolids` on the resolved chunk: without a grid
report a miss; otherwise scan the grid cells covered by the end-position
AABB (coarse overlap-at-end test) and report a hit at half the displacement
length with upward normal when any covered cell is solid.  The source
returns on the first solid cell; every such return carries the same value,
so the scan is modelled with `any`. -/
noncomputable def checkStaticGrid (chunk : ChunkData) (movingAABB : AABB ℝ)
    (displacement : Vec3 ℝ) : Collision :=
  match chunk.solidGrid with
  | none =>
      ⟨false, Vec3Utils.add movingAABB.min displacement, ⟨0, 1, 0⟩,
        Vec3Utils.length displacement, none⟩
  | some grid =>
      let endAABB : AABB ℝ :=
        ⟨Vec3Utils.add movingAABB.min displacement,
         Vec3Utils.add movingAABB.max displacement⟩
      let gridRes : ℤ := grid.width
      let chunkSize : ℝ := 32
      let minGridX := ⌊jsMod endAABB.min.x chunkSize / chunkSize * (gridRes : ℝ)⌋
      let maxGridX := ⌈jsMod endAABB.max.x chunkSize / chunkSize * (gridRes : ℝ)⌉
      let minGridY := ⌊jsMod endAABB.min.y 256 / 256 * (gridRes : ℝ)⌋
      let maxGridY := ⌈jsMod endAABB.max.y 256 / 256 * (gridRes : ℝ)⌉
      let minGridZ := ⌊jsMod endAABB.min.z chunkSize / chunkSize * (gridRes : ℝ)⌋
      let maxGridZ := ⌈jsMod endAABB.max.z chunkSize / chunkSize * (gridRes : ℝ)⌉
      let cells :=
        (intRange (max 0 minGridX) (min gridRes maxGridX - 1)).flatMap (fun x =>
          (intRange (max 0 minGridY) (min gridRes maxGridY - 1)).flatMap (fun y =>
            (intRange (max 0 minGridZ) (min gridRes maxGridZ - 1)).map (fun z =>
              (x, y, z))))
      if cells.any (fun c => isSolid chunk c.1 c.2.1 c.2.2) then
        ⟨true, endAABB.min, ⟨0, 1, 0⟩, Vec3Utils.length displacement * 0.5, none⟩
      else
        ⟨false, Vec3Utils.add movingAABB.min displacement, ⟨0, 1, 0⟩,
          Vec3Utils.length displacement, none⟩

/-- `checkStaticSolids`: resolve the chunk through the chunk manager (which
may create or touch it) and run the grid test. -/
noncomputable def checkStaticSolids (s : MoveState) (movingAABB : AABB ℝ)
    (displacement : Vec3 ℝ) (chunkKey : ChunkKey) : Collision × MoveState :=
  let r := getChunk s chunkKey
  (checkStaticGrid r.1 movingAABB displacement, r.2)

/-- Entry/exit state of the slab loop: running `tmin`, `tmax` and the entry
normal. -/
structure SlabState where
  tmin : ℝ
  tmax : ℝ
  normal : Vec3 ℝ

/-- One axis of the slab intersection loop of `intersectSegmentAABB`:
degenerate axes only test containment; otherwise the sorted slab parameters
tighten `tmin`/`tmax`, the normal following the latest entry axis and
opposing the displacement.  `none` models the early no-hit return. -/
noncomputable def slabAxis (s d mn mx : ℝ) (axisNormal : ℝ → Vec3 ℝ)
    (st : SlabState) : Option SlabState :=
  if |d| < 1 / 1000000000 then
    if s < mn ∨ mx < s then none else some st
  else
    let t1 := (mn - s) / d
    let t2 := (mx - s) / d
    let tlo := if t2 < t1 then t2 else t1
    let thi := if t2 < t1 then t1 else t2
    let st2 : SlabState :=
      if st.tmin < tlo then ⟨tlo, st.tmax, axisNormal (if 0 < d then -1 else 1)⟩
      else st
    let st3 : SlabState := ⟨st2.tmin, min st2.tmax thi, st2.normal⟩
    if st3.tmax < st3.tmin then none else some st3

/-- Hit data of `intersectSegmentAABB`. -/
structure SweepHit where
  hit : Bool
  t : ℝ
  normal : Vec3 ℝ

/-- `intersectSegmentAABB`: slab test of the segment against the box,
processing the axes in x, y, z order with early rejection. -/
noncomputable def intersectSegmentAABB (start endPos : Vec3 ℝ) (aabb : AABB ℝ) :
    SweepHit :=
  let dir := Vec3Utils.subtract endPos start
  let st0 : SlabState := ⟨0, 1, ⟨0, 0, 0⟩⟩
  match slabAxis start.x dir.x aabb.min.x aabb.max.x (fun v => ⟨v, 0, 0⟩) st0 with
  | none => ⟨false, 1, ⟨0, 0, 0⟩⟩
  | some st1 =>
      match slabAxis start.y dir.y aabb.min.y aabb.max.y (fun v => ⟨0, v, 0⟩) st1 with
      | none => ⟨false, 1, ⟨0, 0, 0⟩⟩
      | some st2 =>
          match slabAxis start.z dir.z aabb.min.z aabb.max.z (fun v => ⟨0, 0, v⟩) st2 with
          | none => ⟨false, 1, ⟨0, 0, 0⟩⟩
          | some stf =>
              ⟨decide (0 ≤ stf.tmin ∧ stf.tmin ≤ 1), stf.tmin, stf.normal⟩

/-- `checkDynamicSolid`: a miss unless the other entity is solid and has
shape and mobility; otherwise sweep the mover's center segment against the
Minkowski-expanded target box, reporting the clamped entry distance and the
other entity's id. -/
noncomputable def checkDynamicSolid (w : EWorld ℝ) (movingAABB : AABB ℝ)
    (displacement : Vec3 ℝ) (otherEntityId : String) : Collision :=
  let miss : Collision :=
    ⟨false, Vec3Utils.add movingAABB.min displacement, ⟨0, 1, 0⟩,
      Vec3Utils.length displacement, none⟩
  match EWorld.getContract w otherEntityId "solidity" with
  | some (.solidity true _) =>
      match EWorld.getContract w otherEntityId "shape",
          EWorld.getContract w otherEntityId "mobility" with
      | some (.shape bounds _), some (.mobility pos _ _ _) =>
          let otherAABB := getEntityAABB bounds pos
          let halfExtents : Vec3 ℝ :=
            ⟨(movingAABB.max.x - movingAABB.min.x) / 2,
             (movingAABB.max.y - movingAABB.min.y) / 2,
             (movingAABB.max.z - movingAABB.min.z) / 2⟩
          let startCenter : Vec3 ℝ :=
            ⟨(movingAABB.min.x + movingAABB.max.x) / 2,
             (movingAABB.min.y + movingAABB.max.y) / 2,
             (movingAABB.min.z + movingAABB.max.z) / 2⟩
          let endCenter := Vec3Utils.add startCenter displacement
          let expandedAABB : AABB ℝ :=
            ⟨⟨otherAABB.min.x - halfExtents.x, otherAABB.min.y - halfExtents.y,
               otherAABB.min.z - halfExtents.z⟩,
             ⟨otherAABB.max.x + halfExtents.x, otherAABB.max.y + halfExtents.y,
               otherAABB.max.z + halfExtents.z⟩⟩
          let sweep := intersectSegmentAABB startCenter endCenter expandedAABB
          if sweep.hit then
            let totalDist := Vec3Utils.length displacement
            let hitDist := max 0 (min 1 sweep.t) * totalDist
            let hitPoint := Vec3Utils.add startCenter
              (Vec3Utils.multiply (Vec3Utils.subtract endCenter startCenter) sweep.t)
            ⟨true, hitPoint, sweep.normal, hitDist, some otherEntityId⟩
          else miss
      | _, _ => miss
  | _ => miss

/-- Insertion-ordered deduplication, modelling `new Set(list)` / repeated
`Set.add`. -/
def dedupInsertion (l : List String) : List String :=
  l.foldl (fun acc s => if s ∈ acc then acc else acc ++ [s]) []

/-- `getChunksForMovement`: start chunk, end chunk and the 3×3×3
neighborhood of the start chunk on the hardcoded `default` layer (default
chunk size 32), deduplicated through a string set.  The source re-parses the
key strings and throws on parse failure; the round-trip law makes that
branch unreachable, so it is modelled by `filterMap`. -/
noncomputable def getChunksForMovement (startPos endPos : Vec3 ℝ) : List ChunkKey :=
  let layerId := "default"
  let startChunk := keyFromPos layerId startPos (CHUNK_SIZE ℝ)
  let endChunk := keyFromPos layerId endPos (CHUNK_SIZE ℝ)
  let keyStrs := [ChunkUtils.toString startChunk, ChunkUtils.toString endChunk] ++
    (getNeighboringChunks startChunk 1).map ChunkUtils.toString
  (dedupInsertion keyStrs).filterMap ChunkUtils.fromString

/-- Dynamic-candidate list of `performSweptAABB`:
`new Set(getEntitiesWithContract('solidity'))` minus the mover. -/
def dynCandidates (w : EWorld ℝ) (entityId : String) : List String :=
  (dedupInsertion (EWorld.getEntitiesWithContract w "solidity")).filter
    (fun i => i ≠ entityId)

/-- Static phase of `performSweptAABB`: fold the static grid checks over the
affected chunks, threading the chunk-manager state and keeping the closest
hit (the running collision starts as a no-hit at the full displacement
length and is replaced only on a strictly smaller distance). -/
noncomputable def staticSweep (s : MoveState) (startPos endPos : Vec3 ℝ)
    (shape : AABB ℝ) : Collision × MoveState :=
  let displacement := Vec3Utils.subtract endPos startPos
  let movingAABB := getEntityAABB shape startPos
  let init : Collision :=
    ⟨false, endPos, ⟨0, 1, 0⟩, Vec3Utils.length displacement, none⟩
  let affectedChunks := getChunksForMovement startPos endPos
  affectedChunks.foldl
    (fun (acc : Collision × MoveState) chunkKey =>
      let r := checkStaticSolids acc.2 movingAABB displacement chunkKey
      (if r.1.hit = true ∧ r.1.distance < acc.1.distance then r.1 else acc.1, r.2))
    (init, s)

/-- `performSweptAABB`: the static phase over the affected chunks, then the
dynamic entity checks over the global solid set, keeping the closest hit;
the dynamic phase also replaces the running collision only on a strictly
smaller distance. -/
noncomputable def performSweptAABB (s : MoveState) (entityId : String)
    (startPos endPos : Vec3 ℝ) (shape : AABB ℝ) : Collision × MoveState :=
  let displacement := Vec3Utils.subtract endPos startPos
  let movingAABB := getEntityAABB shape startPos
  let solidEntities := dynCandidates s.ecs entityId
  let afterStatic := staticSweep s startPos endPos shape
  let final := solidEntities.foldl
    (fun (acc : Collision) oid =>
      let col := checkDynamicSolid s.ecs movingAABB displacement oid
      if col.hit = true ∧ col.distance < acc.distance then col else acc)
    afterStatic.1
  (final, afterStatic.2)

/-- `clampMovementToCollision`: pull the movement back to the collision
distance minus the collision epsilon, never behind the start. -/
noncomputable def clampMovementToCollision (startPos endPos : Vec3 ℝ)
    (collision : Collision) : Vec3 ℝ :=
  let displacement := Vec3Utils.subtract endPos startPos
  let clampFactor :=
    max 0 (collision.distance / Vec3Utils.length displacement - collisionEpsilon)
  Vec3Utils.add startPos (Vec3Utils.multiply displacement clampFactor)

/-- Blocked reason attached by `attemptMove` to a collision. -/
def blockedReasonFor (collision : Collision) : String :=
  match collision.entityId with
  | some id => "Blocked by entity " ++ id
  | none => "Blocked by solid"

/-- `BasicMovementSystem.attemptMove`: require mobility and shape, early
accept for sub-epsilon movements, clamp the travel to `maxSpeed · dt`
(`maxSpeed || 5`), sweep, and either accept the proposed position or clamp
to the collision.  `getContract` with the `mobility` (resp. `shape`) tag can
only produce the corresponding constructor, so the catch-all branches are
the missing-contract returns. -/
noncomputable def attemptMove (s : MoveState) (entityId : String) (want : Vec3 ℝ)
    (deltaTime : ℝ) : MoveResult × MoveState :=
  match EWorld.getContract s.ecs entityId "mobility" with
  | some (.mobility position _velocity maxSpeedOpt _acc) =>
      match EWorld.getContract s.ecs entityId "shape" with
      | some (.shape bounds _geo) =>
          let currentPosition := position
          let maxSpeed := jsOrNum maxSpeedOpt 5
          let direction := Vec3Utils.subtract want currentPosition
          let wantDistance := Vec3Utils.length direction
          if wantDistance < collisionEpsilon then
            (⟨true, currentPosition, none, none⟩, s)
          else
            let normalizedDirection := Vec3Utils.normalize direction
            let maxDisplacement := maxSpeed * deltaTime
            let actualDistance := min wantDistance maxDisplacement
            let displacement := Vec3Utils.multiply normalizedDirection actualDistance
            let proposedPosition := Vec3Utils.add currentPosition displacement
            let r := performSweptAABB s entityId currentPosition proposedPosition bounds
            if r.1.hit then
              let clampedPosition :=
                clampMovementToCollision currentPosition proposedPosition r.1
              (⟨false, clampedPosition, some (blockedReasonFor r.1),
                some r.1.normal⟩, r.2)
            else
              (⟨true, proposedPosition, none, none⟩, r.2)
      | _ => (⟨false, position, some "No shape contract", none⟩, s)
  | _ => (⟨false, ⟨0, 0, 0⟩, some "No mobility contract", none⟩, s)

/-- `BasicMovementSystem.moveEntity`: run `attemptMove` and write the
returned position back through the entity store (the write-back condition
`result.ok || result.position` is always true — `position` is an object). -/
noncomputable def moveEntity (s : MoveState) (entityId : String)
    (targetPosition : Vec3 ℝ) (deltaTime : ℝ) : MoveState × Bool :=
  let r := attemptMove s entityId targetPosition deltaTime
  let s' := r.2
  match EWorld.getContract s'.ecs entityId "mobility" with
  | some (.mobility _pos vel ms acc) =>
      let updated : Contract ℝ := .mobility r.1.position vel ms acc
      ({ s' with ecs := (EWorld.addContract s'.ecs entityId updated).1 }, r.1.ok)
  | _ => (s', r.1.ok)

end Movement

section MovementFixtures

/-- Movement state with an empty entity store. -/
noncomputable def emptyState : MoveState := ⟨EWorld.empty, [], 0⟩

/-- Entity holding only a mobility contract (no shape). -/
noncomputable def mobilityOnlyState : MoveState :=
  ⟨⟨[("E", [Contract.mobility ⟨0, 0, 0⟩ none none none])],
    [("mobility", ["E"])], []⟩, [], 0⟩

/-- Entity holding mobility and a unit-cube shape, in a world without
chunks or other entities. -/
noncomputable def moverState : MoveState :=
  ⟨⟨[("E", [Contract.mobility ⟨0, 0, 0⟩ none none none,
      Contract.shape ⟨⟨-1, -1, -1⟩, ⟨1, 1, 1⟩⟩ (some .box)])],
    [("mobility", ["E"]), ("shape", ["E"])], []⟩, [], 0⟩

/-- Fully solid 1×1×1 occupancy grid. -/
def tieGrid : SolidGrid := ⟨1, 1, 1, [true]⟩

/-- Loaded chunk `(0,0,0)` of the default layer carrying the solid grid. -/
def tieChunk : ChunkData := ⟨⟨"default", 0, 0, 0⟩, [], true, 0, 0, 1, some tieGrid⟩

/-- World of the tie scenario: solid entity `B` (solidity, half-unit cube
shape, position `(2,0,0)`), indexed under `solidity`. -/
noncomputable def tieEcs : EWorld ℝ :=
  ⟨[("B", [Contract.solidity true none,
      Contract.shape ⟨⟨-(1/2), -(1/2), -(1/2)⟩, ⟨1/2, 1/2, 1/2⟩⟩ (some .box),
      Contract.mobility ⟨2, 0, 0⟩ none none none])],
    [("solidity", ["B"])], []⟩

/-- Movement state of the tie scenario: the world above plus the solid
chunk. -/
noncomputable def tieState : MoveState :=
  ⟨tieEcs, [("default:0,0,0", tieChunk)], 0⟩

/-- Half-unit cube shape of the moving entity in the tie scenario. -/
noncomputable def tieShape : AABB ℝ :=
  ⟨⟨-(1 / 2), -(1 / 2), -(1 / 2)⟩, ⟨1 / 2, 1 / 2, 1 / 2⟩⟩

/-- The 26 non-start chunks visited by the tie movement, in the order
produced by `getChunksForMovement`. -/
def tieRestKeys : List ChunkKey :=
  [⟨"default", -1, -1, -1⟩, ⟨"default", -1, -1, 0⟩, ⟨"default", -1, -1, 1⟩,
   ⟨"default", -1, 0, -1⟩, ⟨"default", -1, 0, 0⟩, ⟨"default", -1, 0, 1⟩,
   ⟨"default", -1, 1, -1⟩, ⟨"default", -1, 1, 0⟩, ⟨"default", -1, 1, 1⟩,
   ⟨"default", 0, -1, -1⟩, ⟨"default", 0, -1, 0⟩, ⟨"default", 0, -1, 1⟩,
   ⟨"default", 0, 0, -1⟩, ⟨"default", 0, 0, 1⟩,
   ⟨"default", 0, 1, -1⟩, ⟨"default", 0, 1, 0⟩, ⟨"default", 0, 1, 1⟩,
   ⟨"default", 1, -1, -1⟩, ⟨"default", 1, -1, 0⟩, ⟨"default", 1, -1, 1⟩,
   ⟨"default", 1, 0, -1⟩, ⟨"default", 1, 0, 0⟩, ⟨"default", 1, 0, 1⟩,
   ⟨"default", 1, 1, -1⟩, ⟨"default", 1, 1, 0⟩, ⟨"default", 1, 1, 1⟩]

end MovementFixtures

/- Serialization lemmas for `ChunkUtils`. -/

namespace ChunkUtils

lemma splitFirstColon_append (a rest : List Char) (ha : ':' ∉ a) :
    splitFirstColon (a ++ ':' :: rest) = some (a, rest) := by
  induction a with
  | nil => simp [splitFirstColon]
  | cons c t ih =>
      simp only [List.mem_cons, not_or] at ha
      have hc : ¬(c = ':') := fun h => ha.1 h.symm
      simp [splitFirstColon, hc, ih ha.2]

lemma splitCommas_of_not_mem (a : List Char) (ha : ',' ∉ a) :
    splitCommas a = [a] := by
  induction a with
  | nil => simp [splitCommas]
  | cons c t ih =>
      simp only [List.mem_cons, not_or] at ha
      have hc : ¬(c = ',') := fun h => ha.1 h.symm
      simp [splitCommas, hc, ih ha.2]

lemma splitCommas_append (a rest : List Char) (ha : ',' ∉ a) :
    splitCommas (a ++ ',' :: rest) = a :: splitCommas rest := by
  induction a with
  | nil => simp [splitCommas]
  | cons c t ih =>
      simp only [List.mem_cons, not_or] at ha
      have hc : ¬(c = ',') := fun h => ha.1 h.symm
      simp [splitCommas, hc, ih ha.2]

lemma digitVal_digitChar {d : ℕ} (hd : d < 10) : digitVal (digitChar d) = some d := by
  interval_cases d <;> decide

lemma digitChar_not_special {d : ℕ} (hd : d < 10) :
    digitChar d ≠ ':' ∧ digitChar d ≠ ',' ∧ digitChar d ≠ '-' := by
  interval_cases d <;> decide

lemma mem_natChars {c : Char} {n : ℕ} (hc : c ∈ natChars n) :
    ∃ d, d < 10 ∧ c = digitChar d := by
  rw [natChars_eq_digits] at hc
  by_cases h : n = 0
  · rw [if_pos h] at hc
    simp only [List.mem_singleton] at hc
    exact ⟨0, by norm_num, by simpa [digitChar] using hc⟩
  · rw [if_neg h] at hc
    simp only [List.mem_map, List.mem_reverse] at hc
    obtain ⟨d, hd, rfl⟩ := hc
    exact ⟨d, Nat.digits_lt_base (by norm_num) hd, rfl⟩

lemma colon_not_mem_intChars (i : ℤ) : ':' ∉ intChars i := by
  intro h
  unfold intChars at h
  by_cases hi : i < 0
  · rw [if_pos hi] at h
    rcases List.mem_cons.mp h with h' | h'
    · exact absurd h'.symm (by decide)
    · obtain ⟨d, hd, hc⟩ := mem_natChars h'
      exact (digitChar_not_special hd).1 hc.symm
  · rw [if_neg hi] at h
    obtain ⟨d, hd, hc⟩ := mem_natChars h
    exact (digitChar_not_special hd).1 hc.symm

lemma comma_not_mem_intChars (i : ℤ) : ',' ∉ intChars i := by
  intro h
  unfold intChars at h
  by_cases hi : i < 0
  · rw [if_pos hi] at h
    rcases List.mem_cons.mp h with h' | h'
    · exact absurd h'.symm (by decide)
    · obtain ⟨d, hd, hc⟩ := mem_natChars h'
      exact (digitChar_not_special hd).2.1 hc.symm
  · rw [if_neg hi] at h
    obtain ⟨d, hd, hc⟩ := mem_natChars h
    exact (digitChar_not_special hd).2.1 hc.symm

lemma parseNatGo_map (l : List ℕ) (hl : ∀ d ∈ l, d < 10) (acc : ℕ) :
    parseNatGo acc (l.map digitChar) = some (l.foldl (fun a d => a * 10 + d) acc) := by
  induction l generalizing acc with
  | nil => simp [parseNatGo]
  | cons d t ih =>
      have hd : d < 10 := hl d (by simp)
      have ht : ∀ x ∈ t, x < 10 := fun x hx => hl x (by simp [hx])
      simp [parseNatGo, digitVal_digitChar hd, ih ht]

lemma foldl_reverse_digits (l : List ℕ) (acc : ℕ) :
    l.reverse.foldl (fun a d => a * 10 + d) acc =
      acc * 10 ^ l.length + Nat.ofDigits 10 l := by
  induction l generalizing acc with
  | nil => simp [Nat.ofDigits]
  | cons d t ih =>
      simp only [List.reverse_cons, List.foldl_append, List.foldl_cons, List.foldl_nil,
        ih, Nat.ofDigits_cons, List.length_cons]
      ring

lemma parseNatChars_natChars (n : ℕ) : parseNatChars (natChars n) = some n := by
  by_cases h : n = 0
  · subst h; decide
  · have hdig : Nat.digits 10 n ≠ [] := Nat.digits_ne_nil_iff_ne_zero.mpr h
    have hlt : ∀ d ∈ (Nat.digits 10 n).reverse, d < 10 := by
      intro d hd
      exact Nat.digits_lt_base (by norm_num) (List.mem_reverse.mp hd)
    have hchars : natChars n = ((Nat.digits 10 n).reverse).map digitChar := by
      simp [natChars_eq_digits, h]
    have hne : natChars n ≠ [] := by
      rw [hchars]
      simp [hdig]
    obtain ⟨c, t, hct⟩ := List.exists_cons_of_ne_nil hne
    have hgo : parseNatGo 0 (natChars n) = some n := by
      rw [hchars, parseNatGo_map _ hlt, foldl_reverse_digits]
      simp [Nat.ofDigits_digits]
    rw [hct] at hgo ⊢
    simpa [parseNatChars] using hgo

lemma natChars_head_digit (n : ℕ) :
    ∃ c t, natChars n = c :: t ∧ c ≠ '-' := by
  have hne : natChars n ≠ [] := by
    rw [natChars_eq_digits]
    by_cases h : n = 0
    · simp [h]
    · have hdig : Nat.digits 10 n ≠ [] := Nat.digits_ne_nil_iff_ne_zero.mpr h
      simp [h, hdig]
  obtain ⟨c, t, hct⟩ := List.exists_cons_of_ne_nil hne
  refine ⟨c, t, hct, ?_⟩
  have hc : c ∈ natChars n := by rw [hct]; simp
  obtain ⟨d, hd, rfl⟩ := mem_natChars hc
  exact (digitChar_not_special hd).2.2

lemma parseIntChars_intChars (i : ℤ) : parseIntChars (intChars i) = some i := by
  by_cases hi : i < 0
  · have : intChars i = '-' :: natChars (-i).toNat := by simp [intChars, hi]
    rw [this]
    simp only [parseIntChars, if_pos rfl, parseNatChars_natChars]
    simp [Int.toNat_of_nonneg (by omega : (0 : ℤ) ≤ -i)]
  · have : intChars i = natChars i.toNat := by simp [intChars, hi]
    rw [this]
    obtain ⟨c, t, hct, hcm⟩ := natChars_head_digit i.toNat
    rw [hct]
    have hgo : parseNatChars (c :: t) = some i.toNat := by
      rw [← hct, parseNatChars_natChars]
    simp only [parseIntChars, if_neg hcm, hgo]
    simp [Int.toNat_of_nonneg (by omega : (0 : ℤ) ≤ i)]

lemma data_mk (l : List Char) : (String.mk l).data = l := rfl

lemma fromString_toString (k : ChunkKey) (hne : k.layerId.data ≠ [])
    (hcolon : ':' ∉ k.layerId.data) : fromString (toString k) = some k := by
  have h1 := splitFirstColon_append (k.layerId.data)
    (intChars k.cx ++ ',' :: (intChars k.cy ++ ',' :: intChars k.cz)) hcolon
  have hnem : k.layerId.data.isEmpty = false := by
    simpa [List.isEmpty_iff] using hne
  simp only [fromString, toString, keyChars, data_mk, h1, hnem,
    splitCommas_append _ _ (comma_not_mem_intChars k.cx),
    splitCommas_append _ _ (comma_not_mem_intChars k.cy),
    splitCommas_of_not_mem _ (comma_not_mem_intChars k.cz),
    parseIntChars_intChars, Bool.false_eq_true, if_false]

end ChunkUtils

/-- C8: serializing a chunk key and parsing the string back yields the key
again, provided the layer id is nonempty and contains no colon (the regex
group `[^:]+` stops at the first colon, so layer ids violating this cannot
round-trip; see the counterexample). -/
theorem C8_roundtrip_for_plain_layer_ids (k : ChunkKey)
    (hne : k.layerId.data ≠ []) (hcolon : ':' ∉ k.layerId.data) :
    ChunkUtils.fromString (ChunkUtils.toString k) = some k :=
  ChunkUtils.fromString_toString k hne hcolon

/-- Witness for C8 at the key `default:-3,0,12`. -/
theorem C8_roundtrip_witness :
    ("default".data ≠ [] ∧ ':' ∉ "default".data) ∧
      ChunkUtils.fromString (ChunkUtils.toString ⟨"default", -3, 0, 12⟩) =
        some ⟨"default", -3, 0, 12⟩ :=
  ⟨⟨by decide, by decide⟩,
    C8_roundtrip_for_plain_layer_ids ⟨"default", -3, 0, 12⟩ (by decide) (by decide)⟩

/-- Counterexample to C8 as stated for every chunk key: a layer id containing
a colon does not survive the round trip — the regex splits at the first colon
and then fails to parse the remainder, so `fromString` returns `none`. -/
theorem C8_roundtrip_counterexample :
    ChunkUtils.fromString (ChunkUtils.toString ⟨"a:b", 1, 2, 3⟩) ≠
      some ⟨"a:b", 1, 2, 3⟩ := by decide

/-- C9 (amended): the origin-straddle clamp of `getIntersectingChunks`
applies on the x and z axes — every returned chunk has index 0 on a
straddled narrow axis — and the cited box around the origin intersects
exactly the origin chunk.  The y axis is never clamped (see the
counterexample). -/
theorem C9_narrow_straddle_clamp :
    (∀ (layerId : String) (bounds : AABB ℚ) (size : ℚ),
        bounds.min.x < 0 → 0 < bounds.max.x → bounds.max.x - bounds.min.x < size →
        ∀ k ∈ getIntersectingChunks layerId bounds size, k.cx = 0) ∧
    (∀ (layerId : String) (bounds : AABB ℚ) (size : ℚ),
        bounds.min.z < 0 → 0 < bounds.max.z → bounds.max.z - bounds.min.z < size →
        ∀ k ∈ getIntersectingChunks layerId bounds size, k.cz = 0) ∧
    getIntersectingChunks "l" ⟨⟨-5, 0, -5⟩, ⟨5, 10, 5⟩⟩ (32 : ℚ) = [⟨"l", 0, 0, 0⟩] := by
  refine ⟨?_, ?_, ?_⟩
  · intro layerId bounds size h1 h2 h3 k hk
    simp only [getIntersectingChunks, List.mem_flatMap, List.mem_map] at hk
    obtain ⟨cx, hcx, cy, hcy, cz, hcz, rfl⟩ := hk
    rw [if_pos ⟨h1, h2, h3⟩] at hcx
    simpa [intRange] using hcx
  · intro layerId bounds size h1 h2 h3 k hk
    simp only [getIntersectingChunks, List.mem_flatMap, List.mem_map] at hk
    obtain ⟨cx, hcx, cy, hcy, cz, hcz, rfl⟩ := hk
    rw [if_pos ⟨h1, h2, h3⟩] at hcz
    simpa [intRange] using hcz
  · simp only [getIntersectingChunks, worldToChunk, CHUNK_HEIGHT]
    norm_num
    decide

/-- Witness for C9: the clamp conclusions instantiated at the cited box. -/
theorem C9_narrow_straddle_witness :
    ((-5 : ℚ) < 0 ∧ (0 : ℚ) < 5 ∧ (5 : ℚ) - (-5) < 32) ∧
      (∀ k ∈ getIntersectingChunks "l" (⟨⟨-5, 0, -5⟩, ⟨5, 10, 5⟩⟩ : AABB ℚ) 32,
        k.cx = 0) :=
  ⟨⟨by norm_num, by norm_num, by norm_num⟩,
    C9_narrow_straddle_clamp.1 "l" ⟨⟨-5, 0, -5⟩, ⟨5, 10, 5⟩⟩ 32
      (by norm_num) (by norm_num) (by norm_num)⟩

/-- Counterexample to C9 as stated for every axis: a box straddling the
origin on the y axis with span 10 (smaller than the chunk size 32) still
produces a chunk with `cy = -1`; the clamp never applies vertically. -/
theorem C9_narrow_straddle_counterexample :
    (⟨⟨0, -5, 0⟩, ⟨1, 5, 1⟩⟩ : AABB ℚ).min.y < 0 ∧
      (0 : ℚ) < (⟨⟨0, -5, 0⟩, ⟨1, 5, 1⟩⟩ : AABB ℚ).max.y ∧
      (⟨⟨0, -5, 0⟩, ⟨1, 5, 1⟩⟩ : AABB ℚ).max.y -
          (⟨⟨0, -5, 0⟩, ⟨1, 5, 1⟩⟩ : AABB ℚ).min.y < 32 ∧
      (⟨"l", 0, -1, 0⟩ : ChunkKey) ∈
        getIntersectingChunks "l" (⟨⟨0, -5, 0⟩, ⟨1, 5, 1⟩⟩ : AABB ℚ) 32 := by
  refine ⟨by norm_num, by norm_num, by norm_num, ?_⟩
  simp only [getIntersectingChunks, worldToChunk, CHUNK_HEIGHT]
  norm_num
  decide

/- Association-list and generic list lemmas used by the store proofs. -/

section AssocLemmas

variable {β : Type}

lemma alookup_nil (k : String) : alookup ([] : List (String × β)) k = none := rfl

lemma alookup_cons (p : String × β) (m : List (String × β)) (k : String) :
    alookup (p :: m) k = if p.1 = k then some p.2 else alookup m k := by
  by_cases h : p.1 = k <;> simp [alookup, List.find?_cons, h]

lemma alookup_aset_self (m : List (String × β)) (k : String) (v : β) :
    alookup (aset m k v) k = some v := by
  induction m with
  | nil => simp [aset, alookup_cons]
  | cons p rest ih =>
      by_cases h : p.1 = k
      · simp [aset, h, alookup_cons]
      · simp [aset, h, alookup_cons, ih]

lemma alookup_aset_ne (m : List (String × β)) (k k' : String) (v : β)
    (h : k' ≠ k) : alookup (aset m k v) k' = alookup m k' := by
  have hkk : ¬(k = k') := fun hh => h hh.symm
  induction m with
  | nil => simp [aset, alookup_cons, alookup_nil, hkk]
  | cons p rest ih =>
      by_cases hp : p.1 = k
      · rw [show aset (p :: rest) k v = (k, v) :: rest by simp [aset, hp]]
        rw [alookup_cons, alookup_cons, if_neg hkk,
          if_neg (by rw [hp]; exact hkk)]
      · rw [show aset (p :: rest) k v = p :: aset rest k v by simp [aset, hp]]
        rw [alookup_cons, alookup_cons, ih]

lemma alookup_adelete_ne (m : List (String × β)) (k k' : String)
    (h : k' ≠ k) : alookup (adelete m k) k' = alookup m k' := by
  induction m with
  | nil => simp [adelete]
  | cons p rest ih =>
      by_cases hp : p.1 = k
      · rw [show adelete (p :: rest) k = rest by simp [adelete, hp]]
        rw [alookup_cons, if_neg (fun hh => h (hh.symm.trans hp))]
      · rw [show adelete (p :: rest) k = p :: adelete rest k by simp [adelete, hp]]
        rw [alookup_cons, alookup_cons, ih]

lemma alookup_eq_none_of_not_mem (m : List (String × β)) (k : String)
    (h : k ∉ m.map Prod.fst) : alookup m k = none := by
  induction m with
  | nil => rfl
  | cons p rest ih =>
      simp only [List.map_cons, List.mem_cons, not_or] at h
      rw [alookup_cons, if_neg (fun hh => h.1 hh.symm), ih h.2]

lemma alookup_adelete_self (m : List (String × β)) (k : String)
    (hnd : (m.map Prod.fst).Nodup) : alookup (adelete m k) k = none := by
  induction m with
  | nil => simp [adelete, alookup_nil]
  | cons p rest ih =>
      simp only [List.map_cons, List.nodup_cons] at hnd
      by_cases hp : p.1 = k
      · rw [show adelete (p :: rest) k = rest by simp [adelete, hp]]
        subst hp
        exact alookup_eq_none_of_not_mem rest p.1 hnd.1
      · rw [show adelete (p :: rest) k = p :: adelete rest k by simp [adelete, hp]]
        rw [alookup_cons, if_neg hp, ih hnd.2]

lemma alookup_append_ne (m : List (String × β)) (k k' : String) (v : β)
    (h : k' ≠ k) : alookup (m ++ [(k, v)]) k' = alookup m k' := by
  induction m with
  | nil =>
      rw [List.nil_append, alookup_cons, if_neg (fun hh => h (hh.symm)), alookup_nil]
  | cons p rest ih =>
      rw [List.cons_append, alookup_cons, alookup_cons, ih]

lemma alookup_append_self (m : List (String × β)) (k : String) (v : β)
    (h : alookup m k = none) : alookup (m ++ [(k, v)]) k = some v := by
  induction m with
  | nil => simp [alookup_cons]
  | cons p rest ih =>
      rw [alookup_cons] at h
      by_cases hp : p.1 = k
      · rw [if_pos hp] at h; exact absurd h (by simp)
      · rw [if_neg hp] at h
        rw [List.cons_append, alookup_cons, if_neg hp]
        exact ih h

lemma not_mem_of_alookup_eq_none (m : List (String × β)) (k : String)
    (h : alookup m k = none) : k ∉ m.map Prod.fst := by
  induction m with
  | nil => simp
  | cons p rest ih =>
      rw [alookup_cons] at h
      by_cases hp : p.1 = k
      · rw [if_pos hp] at h; exact absurd h (by simp)
      · rw [if_neg hp] at h
        simp only [List.map_cons, List.mem_cons, not_or]
        exact ⟨fun hh => hp hh.symm, ih h⟩

lemma alookup_isSome_of_mem (m : List (String × β)) (k : String)
    (h : k ∈ m.map Prod.fst) : (alookup m k).isSome = true := by
  cases halo : alookup m k with
  | none => exact absurd h (not_mem_of_alookup_eq_none m k halo)
  | some v => rfl

lemma mem_of_alookup_eq_some (m : List (String × β)) (k : String) (v : β)
    (h : alookup m k = some v) : k ∈ m.map Prod.fst := by
  by_contra hmem
  rw [alookup_eq_none_of_not_mem m k hmem] at h
  exact absurd h (by simp)

lemma adelete_map_fst_sublist (m : List (String × β)) (k : String) :
    ((adelete m k).map Prod.fst).Sublist (m.map Prod.fst) := by
  induction m with
  | nil => simp [adelete]
  | cons p rest ih =>
      by_cases hp : p.1 = k
      · rw [show adelete (p :: rest) k = rest by simp [adelete, hp]]
        exact List.sublist_cons_of_sublist _ (List.Sublist.refl _)
      · rw [show adelete (p :: rest) k = p :: adelete rest k by simp [adelete, hp]]
        simpa using ih

end AssocLemmas

section ListHelpers

variable {γ : Type}

lemma find?_eq_head?_filter (p : γ → Bool) (l : List γ) :
    l.find? p = (l.filter p).head? := by
  induction l with
  | nil => rfl
  | cons x xs ih =>
      by_cases h : p x
      · rw [List.find?_cons_of_pos _ h, List.filter_cons_of_pos h, List.head?_cons]
      · rw [List.find?_cons_of_neg _ h, List.filter_cons_of_neg h, ih]

lemma mem_of_head?_filter [DecidableEq γ] {p : γ → Bool} {l : List γ} {a : γ}
    (h : (l.filter p).head? = some a) : a ∈ l ∧ p a = true := by
  have hm : a ∈ l.filter p := by
    cases hf : l.filter p with
    | nil => rw [hf] at h; exact absurd h (by simp)
    | cons b t =>
        rw [hf] at h
        simp only [List.head?_cons, Option.some_inj] at h
        rw [← h]
        exact List.mem_cons_self b t
  exact ⟨(List.mem_filter.mp hm).1, (List.mem_filter.mp hm).2⟩

lemma filter_erase_head [DecidableEq γ] (p : γ → Bool) (l : List γ) (a : γ)
    (h : (l.filter p).head? = some a) :
    (l.erase a).filter p = (l.filter p).tail := by
  induction l with
  | nil => simp at h
  | cons x xs ih =>
      by_cases hp : p x
      · rw [List.filter_cons_of_pos hp] at h ⊢
        simp only [List.head?_cons, Option.some_inj] at h
        subst h
        rw [List.erase_cons_head]
        simp
      · rw [List.filter_cons_of_neg hp] at h ⊢
        have ha : p a = true := (mem_of_head?_filter h).2
        have hax : ¬(x == a) := by
          simp only [beq_iff_eq]
          intro hh
          exact absurd (hh ▸ ha) (by simpa using hp)
        rw [List.erase_cons_tail]
        · rw [List.filter_cons_of_neg hp]
          exact ih h
        · simpa using hax

lemma foldl_erase_self [DecidableEq γ] (l : List γ) :
    l.foldl (fun acc c => acc.erase c) l = [] := by
  induction l with
  | nil => rfl
  | cons c rest ih =>
      rw [List.foldl_cons]
      simp only [List.erase_cons_head]
      exact ih

end ListHelpers

namespace EWorld

variable {α : Type} [LinearOrderedField α]

lemma getContract_eq_head (w : EWorld α) (e t : String) :
    getContract w e t = (typedContracts w e t).head? := by
  unfold getContract typedContracts contractsOf
  cases h : alookup w.entities e with
  | none => simp
  | some cs =>
      simp only [Option.getD_some]
      exact find?_eq_head?_filter _ cs

lemma aset_cons_eq (p : String × β') (rest : List (String × β')) (k : String)
    (v : β') (h : p.1 = k) : aset (p :: rest) k v = (k, v) :: rest := by
  simp [aset, h]

lemma aset_cons_ne (p : String × β') (rest : List (String × β')) (k : String)
    (v : β') (h : ¬(p.1 = k)) : aset (p :: rest) k v = p :: aset rest k v := by
  simp [aset, h]

lemma aset_map_fst_of_mem (m : List (String × β')) (k : String) (v : β')
    (h : (alookup m k).isSome) :
    (aset m k v).map Prod.fst = m.map Prod.fst := by
  induction m with
  | nil => simp [alookup_nil] at h
  | cons p rest ih =>
      by_cases hp : p.1 = k
      · rw [aset_cons_eq p rest k v hp]
        simp [hp]
      · rw [aset_cons_ne p rest k v hp]
        rw [alookup_cons, if_neg hp] at h
        simp only [List.map_cons]
        rw [ih h]

lemma removeContractInternal_entities_map_fst (w : EWorld α) (e : String)
    (c : Contract α) :
    ((removeContractInternal w e c).entities).map Prod.fst =
      w.entities.map Prod.fst := by
  unfold removeContractInternal
  cases h : alookup w.entities e with
  | none => rfl
  | some cs =>
      by_cases hc : c ∈ cs
      · simp only [hc, if_true]
        exact aset_map_fst_of_mem w.entities e (cs.erase c) (by simp [h])
      · simp [hc]

/-- Removing the oldest contract of a kind: the entity's set loses exactly
that contract, the kind's list loses its head, the removal hook fires, and
other entities are untouched. -/
lemma removeOldest_spec (w : EWorld α) (e t : String) (cs : List (Contract α))
    (c : Contract α)
    (hcs : alookup w.entities e = some cs)
    (hhead : (cs.filter (fun x => x.type == t)).head? = some c) :
    alookup (removeContractInternal w e c).entities e = some (cs.erase c) ∧
    (cs.erase c).filter (fun x => x.type == t) =
      (cs.filter (fun x => x.type == t)).tail ∧
    (removeContractInternal w e c).log = w.log ++ [.contractRemoved e c] := by
  have hc : c ∈ cs := (mem_of_head?_filter hhead).1
  unfold removeContractInternal
  rw [hcs]
  simp only [hc, if_true]
  refine ⟨?_, filter_erase_head _ _ _ hhead, ?_⟩
  · exact alookup_aset_self w.entities e (cs.erase c)
  · trivial

lemma evictLoop_step (w : EWorld α) (e : String) (c : Contract α)
    (rest : List (Contract α)) (m : α) (h : m ≤ (((c :: rest).length : ℕ) : α)) :
    evictLoop w e (c :: rest) m = evictLoop (removeContractInternal w e c) e rest m := by
  conv_lhs => unfold evictLoop
  rw [if_pos h]

lemma evictLoop_stop (w : EWorld α) (e : String) (snapshot : List (Contract α))
    (m : α) (h : ¬(m ≤ ((snapshot.length : ℕ) : α))) :
    evictLoop w e snapshot m = w := by
  conv_lhs => unfold evictLoop
  rw [if_neg h]

lemma evictLoop_nil (w : EWorld α) (e : String) (m : α) :
    evictLoop w e [] m = w := by
  conv_lhs => unfold evictLoop
  by_cases h : m ≤ ((([] : List (Contract α)).length : ℕ) : α)
  · rw [if_pos h]
  · rw [if_neg h]

/-- Specification of the eviction loop of `addContract` for a positive
integer effective limit `n`: starting from a snapshot that is the entity's
kind-`t` list, it drops the `length + 1 - n` oldest entries (none when below
the limit), firing their removal hooks in age order. -/
lemma evictLoop_spec (n : ℕ) (hn : 1 ≤ n) (t e : String) :
    ∀ (snapshot : List (Contract α)) (w : EWorld α) (cs : List (Contract α)),
      alookup w.entities e = some cs →
      cs.filter (fun x => x.type == t) = snapshot →
      ∃ cs',
        alookup (evictLoop w e snapshot ((n : ℕ) : α)).entities e = some cs' ∧
        cs'.filter (fun x => x.type == t) =
          snapshot.drop (snapshot.length + 1 - n) ∧
        (evictLoop w e snapshot ((n : ℕ) : α)).log = w.log ++
          (snapshot.take (snapshot.length + 1 - n)).map (EcsEvent.contractRemoved e) ∧
        ((evictLoop w e snapshot ((n : ℕ) : α)).entities).map Prod.fst =
          w.entities.map Prod.fst := by
  intro snapshot
  induction snapshot with
  | nil =>
      intro w cs hcs hf
      rw [evictLoop_nil]
      exact ⟨cs, hcs, by simpa using hf, by simp, rfl⟩
  | cons c rest ih =>
      intro w cs hcs hf
      by_cases hlen : n ≤ (c :: rest).length
      · have hcast : ((n : ℕ) : α) ≤ (((c :: rest).length : ℕ) : α) :=
          Nat.cast_le.mpr hlen
        rw [evictLoop_step w e c rest _ hcast]
        have hhead : (cs.filter (fun x => x.type == t)).head? = some c := by
          rw [hf]; rfl
        obtain ⟨h1, h2, h3⟩ := removeOldest_spec w e t cs c hcs hhead
        rw [hf] at h2
        obtain ⟨cs', hc1, hc2, hc3, hc4⟩ := ih (removeContractInternal w e c)
          (cs.erase c) h1 (by simpa using h2)
        have hlen' : n ≤ rest.length + 1 := by simpa using hlen
        have harith : (c :: rest).length + 1 - n = (rest.length + 1 - n) + 1 := by
          simp only [List.length_cons]
          omega
        refine ⟨cs', hc1, ?_, ?_, ?_⟩
        · rw [hc2, harith, List.drop_succ_cons]
        · rw [hc3, h3, harith, List.take_succ_cons]
          simp
        · rw [hc4, removeContractInternal_entities_map_fst]
      · have hcast : ¬(((n : ℕ) : α) ≤ (((c :: rest).length : ℕ) : α)) := by
          rw [Nat.cast_le]
          omega
        rw [evictLoop_stop w e (c :: rest) _ hcast]
        have hlen2 : ¬(n ≤ rest.length + 1) := by simpa using hlen
        have harith : (c :: rest).length + 1 - n = 0 := by
          clear hcast hlen
          simp only [List.length_cons]
          omega
        rw [harith]
        exact ⟨cs, hcs, by simpa using hf, by simp, rfl⟩

/-- The post-eviction limit check always passes when the effective limit is
the positive integer `n` and fewer than `n` contracts of the kind remain. -/
lemma checkLimits_of_count_lt (t : String) (existing : List (Contract α))
    (limitC : Option (Contract α)) (n : ℕ)
    (hmax : getMaxContractsAllowed t limitC = ((n : ℕ) : α))
    (hcount : (existing.filter (fun c => c.type == t)).length < n) :
    checkLimits t existing limitC = true := by
  have hcast : (((existing.filter (fun c => c.type == t)).length : ℕ) : α) <
      ((n : ℕ) : α) := Nat.cast_lt.mpr hcount
  unfold checkLimits
  unfold getMaxContractsAllowed at hmax
  cases h1 : limitEntry limitC t with
  | some m =>
      rw [h1] at hmax
      have hm : m = ((n : ℕ) : α) := hmax
      simp only [hm, decide_eq_true_eq, not_le]
      exact hcast
  | none =>
      rw [h1] at hmax
      cases h2 : alookup (globalLimits : List (String × α)) t with
      | some g =>
          rw [h2] at hmax
          have hg : g = ((n : ℕ) : α) := hmax
          simp only [hg, decide_eq_true_eq, not_le]
          exact hcast
      | none => rfl

lemma entity_isSome_of_getContract {w : EWorld α} {e t : String} {c : Contract α}
    (h : getContract w e t = some c) : (alookup w.entities e).isSome = true := by
  unfold getContract at h
  cases halo : alookup w.entities e with
  | none => rw [halo] at h; exact absurd h (by simp)
  | some cs => simp [halo]

/-- Success path of `addContract` at a positive integer effective limit `n`:
the add succeeds, the kind's list drops its oldest entries down to `n − 1`
and appends the new record, the removal hooks fire in age order before the
add hook, and the set of entity keys is unchanged. -/
lemma addContract_spec (w : EWorld α) (e : String) (c c' : Contract α) (n : ℕ)
    (hn : 1 ≤ n)
    (hent : (alookup w.entities e).isSome = true)
    (hval : validate c = .ok c')
    (hmax : getMaxContractsAllowed c'.type (getContract w e "contract_limit") =
      ((n : ℕ) : α)) :
    (addContract w e c).2 = true ∧
    typedContracts (addContract w e c).1 e c'.type =
      (typedContracts w e c'.type).drop
        ((typedContracts w e c'.type).length + 1 - n) ++ [c'] ∧
    (addContract w e c).1.log = w.log ++
      ((typedContracts w e c'.type).take
        ((typedContracts w e c'.type).length + 1 - n)).map
        (EcsEvent.contractRemoved e) ++ [.contractAdded e c'] ∧
    (alookup (addContract w e c).1.entities e).isSome = true ∧
    ((addContract w e c).1.entities).map Prod.fst = w.entities.map Prod.fst := by
  obtain ⟨contracts, hc⟩ := Option.isSome_iff_exists.mp hent
  have htyped : typedContracts w e c'.type =
      contracts.filter (fun x => x.type == c'.type) := by
    unfold typedContracts contractsOf
    simp only [hc, Option.getD_some]
  obtain ⟨cs', e1, e2, e3, e4⟩ := evictLoop_spec n hn c'.type e
    (contracts.filter (fun x => x.type == c'.type)) w contracts hc rfl
  have hcount : (cs'.filter (fun x => x.type == c'.type)).length < n := by
    rw [e2]
    simp only [List.length_drop]
    omega
  have hchk : checkLimits c'.type cs' (getContract w e "contract_limit") = true :=
    checkLimits_of_count_lt c'.type cs' (getContract w e "contract_limit") n
      (by rw [hmax]) hcount
  rw [htyped]
  simp only [addContract, hc, hval, hmax, e1, Option.getD_some, hchk, if_true]
  refine ⟨trivial, ?_, ?_, ?_, ?_⟩
  · unfold typedContracts contractsOf
    rw [alookup_aset_self]
    simp only [Option.getD_some, List.filter_append]
    rw [e2]
    simp
  · rw [e3]
  · simp [alookup_aset_self]
  · rw [aset_map_fst_of_mem _ _ _ (by simp [e1]), e4]

lemma foldRemove_map_fst (snapshot : List (Contract α)) (w : EWorld α)
    (e : String) :
    ((snapshot.foldl (fun acc c => removeContractInternal acc e c) w).entities).map
      Prod.fst = w.entities.map Prod.fst := by
  induction snapshot generalizing w with
  | nil => rfl
  | cons c rest ih =>
      simp only [List.foldl_cons]
      rw [ih, removeContractInternal_entities_map_fst]

/-- After `removeEntity` the entity is gone (the entity map holds each key
once in any state built through the store operations). -/
lemma removeEntity_hasEntity_false (w : EWorld α) (e : String)
    (hnd : (w.entities.map Prod.fst).Nodup) :
    hasEntity (removeEntity w e) e = false := by
  unfold removeEntity
  cases halo : alookup w.entities e with
  | none =>
      unfold hasEntity
      rw [halo]
      rfl
  | some cs =>
      unfold hasEntity
      simp only
      rw [alookup_adelete_self _ _ (by rw [foldRemove_map_fst]; exact hnd)]
      rfl

lemma removeContractInternal_contractsOf_ne (w : EWorld α) (eid : String)
    (c : Contract α) (e : String) (he : e ≠ eid) :
    contractsOf (removeContractInternal w eid c) e = contractsOf w e := by
  unfold removeContractInternal
  cases halo : alookup w.entities eid with
  | none => rfl
  | some cs =>
      by_cases hc : c ∈ cs
      · simp only [hc, if_true]
        show (alookup (aset w.entities eid (cs.erase c)) e).getD [] =
          contractsOf w e
        rw [alookup_aset_ne w.entities eid e (cs.erase c) he]
        rfl
      · simp [hc]

lemma removeContractInternal_contractsOf_self (w : EWorld α) (eid : String)
    (c : Contract α) :
    contractsOf (removeContractInternal w eid c) eid =
      (contractsOf w eid).erase c := by
  unfold removeContractInternal
  cases halo : alookup w.entities eid with
  | none =>
      show contractsOf w eid = (contractsOf w eid).erase c
      unfold contractsOf
      rw [halo]
      rfl
  | some cs =>
      by_cases hc : c ∈ cs
      · simp only [hc, if_true]
        show (alookup (aset w.entities eid (cs.erase c)) eid).getD [] =
          (contractsOf w eid).erase c
        rw [alookup_aset_self]
        unfold contractsOf
        rw [halo]
        rfl
      · simp only [hc, if_false]
        unfold contractsOf
        rw [halo]
        simp only [Option.getD_some]
        rw [List.erase_of_not_mem hc]

lemma removeContractInternal_getEntities_ne (w : EWorld α) (eid : String)
    (c : Contract α) (t : String) (ht : t ≠ c.type) :
    getEntitiesWithContract (removeContractInternal w eid c) t =
      getEntitiesWithContract w t := by
  unfold removeContractInternal
  cases halo : alookup w.entities eid with
  | none => rfl
  | some cs =>
      by_cases hc : c ∈ cs
      · cases hidx : alookup w.contractIndex c.type with
        | none =>
            simp only [removeContractInternal, getEntitiesWithContract, halo,
              hc, if_true, hidx]
        | some ids =>
            cases hemp : (ids.erase eid).isEmpty with
            | true =>
                simp only [removeContractInternal, getEntitiesWithContract,
                  halo, hc, if_true, hidx, hemp, eq_self_iff_true]
                rw [alookup_adelete_ne w.contractIndex c.type t ht]
            | false =>
                simp only [removeContractInternal, getEntitiesWithContract,
                  halo, hc, if_true, hidx, hemp, Bool.false_eq_true, if_false]
                rw [alookup_aset_ne w.contractIndex c.type t (ids.erase eid) ht]
      · simp [hc]

lemma removeContractInternal_getEntities_self (w : EWorld α) (eid : String)
    (c : Contract α) (cs : List (Contract α))
    (halo : alookup w.entities eid = some cs) (hc : c ∈ cs)
    (hB : (w.contractIndex.map Prod.fst).Nodup) :
    getEntitiesWithContract (removeContractInternal w eid c) c.type =
      (getEntitiesWithContract w c.type).erase eid := by
  cases hidx : alookup w.contractIndex c.type with
  | none =>
      simp only [removeContractInternal, getEntitiesWithContract, halo, hc,
        if_true, hidx, Option.getD_none, List.erase_nil]
  | some ids =>
      cases hemp : (ids.erase eid).isEmpty with
      | true =>
          simp only [removeContractInternal, getEntitiesWithContract, halo, hc,
            if_true, hidx, hemp, eq_self_iff_true, Option.getD_some]
          rw [alookup_adelete_self _ _ hB]
          simp only [Option.getD_none]
          exact (List.isEmpty_iff.mp hemp).symm
      | false =>
          simp only [removeContractInternal, getEntitiesWithContract, halo, hc,
            if_true, hidx, hemp, Bool.false_eq_true, if_false, Option.getD_some]
          rw [alookup_aset_self]
          rfl

lemma removeContractInternal_index_map_fst_sublist (w : EWorld α)
    (eid : String) (c : Contract α) :
    (((removeContractInternal w eid c).contractIndex).map Prod.fst).Sublist
      (w.contractIndex.map Prod.fst) := by
  unfold removeContractInternal
  cases halo : alookup w.entities eid with
  | none => exact List.Sublist.refl _
  | some cs =>
      by_cases hc : c ∈ cs
      · cases hidx : alookup w.contractIndex c.type with
        | none =>
            simp only [removeContractInternal, halo, hc, if_true, hidx]
            exact List.Sublist.refl _
        | some ids =>
            cases hemp : (ids.erase eid).isEmpty with
            | true =>
                simp only [removeContractInternal, halo, hc, if_true, hidx,
                  hemp, eq_self_iff_true]
                exact adelete_map_fst_sublist _ _
            | false =>
                simp only [removeContractInternal, halo, hc, if_true, hidx,
                  hemp, Bool.false_eq_true, if_false]
                rw [aset_map_fst_of_mem _ _ _ (by simp [hidx])]
      · simp [hc]

/-- `removeContractInternal` preserves the structural store invariant.  The
interesting case is the kind being removed: the entity is dropped from the
index entry whether or not it still holds another contract of the kind, so
only the index-to-store direction survives. -/
lemma indexSound_removeContractInternal (w : EWorld α) (eid : String)
    (c : Contract α) (hw : IndexSound w) :
    IndexSound (removeContractInternal w eid c) := by
  obtain ⟨hA, hB, hC, hD⟩ := hw
  cases halo : alookup w.entities eid with
  | none =>
      unfold removeContractInternal
      rw [halo]
      exact ⟨hA, hB, hC, hD⟩
  | some cs =>
      by_cases hc : c ∈ cs
      · refine ⟨?_, ?_, ?_, ?_⟩
        · rw [removeContractInternal_entities_map_fst]; exact hA
        · exact hB.sublist (removeContractInternal_index_map_fst_sublist w eid c)
        · intro t
          by_cases ht : t = c.type
          · subst ht
            rw [removeContractInternal_getEntities_self w eid c cs halo hc hB]
            exact (hC c.type).erase eid
          · rw [removeContractInternal_getEntities_ne w eid c t ht]
            exact hC t
        · intro e t hmem
          by_cases ht : t = c.type
          · subst ht
            rw [removeContractInternal_getEntities_self w eid c cs halo hc hB]
              at hmem
            have he := (List.Nodup.mem_erase_iff (hC c.type)).mp hmem
            obtain ⟨c0, hc0m, hc0t⟩ := hD e c.type he.2
            rw [removeContractInternal_contractsOf_ne w eid c e he.1]
            exact ⟨c0, hc0m, hc0t⟩
          · rw [removeContractInternal_getEntities_ne w eid c t ht] at hmem
            obtain ⟨c0, hc0m, hc0t⟩ := hD e t hmem
            by_cases he : e = eid
            · subst he
              rw [removeContractInternal_contractsOf_self]
              refine ⟨c0, ?_, hc0t⟩
              exact (List.mem_erase_of_ne
                (fun hcc => ht (by rw [← hc0t, hcc]))).mpr hc0m
            · rw [removeContractInternal_contractsOf_ne w eid c e he]
              exact ⟨c0, hc0m, hc0t⟩
      · unfold removeContractInternal
        rw [halo]
        simp only [hc, if_false]
        exact ⟨hA, hB, hC, hD⟩

lemma evictLoop_entities_map_fst (e : String) (m : α) :
    ∀ (snapshot : List (Contract α)) (w : EWorld α),
      ((evictLoop w e snapshot m).entities).map Prod.fst =
        w.entities.map Prod.fst := by
  intro snapshot
  induction snapshot with
  | nil => intro w; rw [evictLoop_nil]
  | cons c rest ih =>
      intro w
      by_cases h : m ≤ (((c :: rest).length : ℕ) : α)
      · rw [evictLoop_step w e c rest m h, ih,
          removeContractInternal_entities_map_fst]
      · rw [evictLoop_stop w e _ m h]

lemma indexSound_evictLoop (e : String) (m : α) :
    ∀ (snapshot : List (Contract α)) (w : EWorld α), IndexSound w →
      IndexSound (evictLoop w e snapshot m) := by
  intro snapshot
  induction snapshot with
  | nil =>
      intro w hw
      rw [evictLoop_nil]
      exact hw
  | cons c rest ih =>
      intro w hw
      by_cases h : m ≤ (((c :: rest).length : ℕ) : α)
      · rw [evictLoop_step w e c rest m h]
        exact ih _ (indexSound_removeContractInternal w e c hw)
      · rw [evictLoop_stop w e _ m h]
        exact hw

lemma typed_witness_after_insert (w1 : EWorld α) (eid : String)
    (c' : Contract α) (e t : String)
    (h : ∃ c0 ∈ contractsOf w1 e, c0.type = t) :
    ∃ c0 ∈ (alookup (aset w1.entities eid
      (((alookup w1.entities eid).getD []) ++ [c'])) e).getD [],
      c0.type = t := by
  obtain ⟨c0, hc0, hc0t⟩ := h
  by_cases he : e = eid
  · subst he
    rw [alookup_aset_self]
    refine ⟨c0, ?_, hc0t⟩
    simp only [Option.getD_some]
    exact List.mem_append_left _ hc0
  · rw [alookup_aset_ne _ _ _ _ he]
    exact ⟨c0, hc0, hc0t⟩

lemma new_witness_after_insert (w1 : EWorld α) (eid : String)
    (c' : Contract α) :
    ∃ c0 ∈ (alookup (aset w1.entities eid
      (((alookup w1.entities eid).getD []) ++ [c'])) eid).getD [],
      c0.type = c'.type := by
  rw [alookup_aset_self]
  exact ⟨c', by simp, rfl⟩

/-- The success-path state of `addContract` (entity set extended with the
validated record, inverted index updated through `indexAdd`) satisfies the
structural invariant. -/
lemma indexSound_insert (w1 : EWorld α) (eid : String) (c' : Contract α)
    (lg : List (EcsEvent α)) (hw1 : IndexSound w1)
    (hmem : eid ∈ w1.entities.map Prod.fst) :
    IndexSound
      ⟨aset w1.entities eid (((alookup w1.entities eid).getD []) ++ [c']),
        indexAdd w1.contractIndex c'.type eid, lg⟩ := by
  obtain ⟨hA, hB, hC, hD⟩ := hw1
  have hsome : (alookup w1.entities eid).isSome = true :=
    alookup_isSome_of_mem _ _ hmem
  cases hidx : alookup w1.contractIndex c'.type with
  | none =>
      have hI : indexAdd w1.contractIndex c'.type eid =
          w1.contractIndex ++ [(c'.type, [eid])] := by
        simp only [indexAdd, hidx]
      refine ⟨?_, ?_, ?_, ?_⟩
      · show ((aset w1.entities eid
          (((alookup w1.entities eid).getD []) ++ [c'])).map Prod.fst).Nodup
        rw [aset_map_fst_of_mem _ _ _ hsome]
        exact hA
      · show ((indexAdd w1.contractIndex c'.type eid).map Prod.fst).Nodup
        rw [hI, List.map_append, List.nodup_append]
        refine ⟨hB, by simp, ?_⟩
        intro a ha hb
        simp only [List.map_cons, List.map_nil, List.mem_singleton] at hb
        subst hb
        exact not_mem_of_alookup_eq_none _ _ hidx ha
      · intro t
        show ((alookup (indexAdd w1.contractIndex c'.type eid) t).getD []).Nodup
        rw [hI]
        by_cases ht : t = c'.type
        · subst ht
          rw [alookup_append_self _ _ _ hidx]
          simp
        · rw [alookup_append_ne _ _ _ _ ht]
          exact hC t
      · intro e t hmem'
        have hm2 : e ∈ (alookup (indexAdd w1.contractIndex c'.type eid)
            t).getD [] := hmem'
        rw [hI] at hm2
        by_cases ht : t = c'.type
        · subst ht
          rw [alookup_append_self _ _ _ hidx] at hm2
          simp only [Option.getD_some, List.mem_singleton] at hm2
          subst hm2
          exact new_witness_after_insert w1 e c'
        · rw [alookup_append_ne _ _ _ _ ht] at hm2
          exact typed_witness_after_insert w1 eid c' e t (hD e t hm2)
  | some ids =>
      have hids : ids.Nodup := by
        have h0 := hC c'.type
        unfold getEntitiesWithContract at h0
        rw [hidx] at h0
        simpa using h0
      by_cases hin : eid ∈ ids
      · have hI : indexAdd w1.contractIndex c'.type eid = w1.contractIndex := by
          simp only [indexAdd, hidx, hin, if_true]
        refine ⟨?_, ?_, ?_, ?_⟩
        · show ((aset w1.entities eid
            (((alookup w1.entities eid).getD []) ++ [c'])).map Prod.fst).Nodup
          rw [aset_map_fst_of_mem _ _ _ hsome]
          exact hA
        · show ((indexAdd w1.contractIndex c'.type eid).map Prod.fst).Nodup
          rw [hI]
          exact hB
        · intro t
          show ((alookup (indexAdd w1.contractIndex c'.type eid) t).getD []).Nodup
          rw [hI]
          exact hC t
        · intro e t hmem'
          have hm2 : e ∈ (alookup (indexAdd w1.contractIndex c'.type eid)
              t).getD [] := hmem'
          rw [hI] at hm2
          exact typed_witness_after_insert w1 eid c' e t (hD e t hm2)
      · have hI : indexAdd w1.contractIndex c'.type eid =
            aset w1.contractIndex c'.type (ids ++ [eid]) := by
          simp only [indexAdd, hidx, hin, if_false]
        refine ⟨?_, ?_, ?_, ?_⟩
        · show ((aset w1.entities eid
            (((alookup w1.entities eid).getD []) ++ [c'])).map Prod.fst).Nodup
          rw [aset_map_fst_of_mem _ _ _ hsome]
          exact hA
        · show ((indexAdd w1.contractIndex c'.type eid).map Prod.fst).Nodup
          rw [hI, aset_map_fst_of_mem _ _ _ (by simp [hidx])]
          exact hB
        · intro t
          show ((alookup (indexAdd w1.contractIndex c'.type eid) t).getD []).Nodup
          rw [hI]
          by_cases ht : t = c'.type
          · subst ht
            rw [alookup_aset_self]
            simp only [Option.getD_some]
            rw [List.nodup_append]
            refine ⟨hids, by simp, ?_⟩
            intro a ha hb
            rw [List.mem_singleton] at hb
            subst hb
            exact hin ha
          · rw [alookup_aset_ne _ _ _ _ ht]
            exact hC t
        · intro e t hmem'
          have hm2 : e ∈ (alookup (indexAdd w1.contractIndex c'.type eid)
              t).getD [] := hmem'
          rw [hI] at hm2
          by_cases ht : t = c'.type
          · subst ht
            rw [alookup_aset_self] at hm2
            simp only [Option.getD_some] at hm2
            rcases List.mem_append.mp hm2 with h1 | h1
            · have hm3 : e ∈ getEntitiesWithContract w1 c'.type := by
                unfold getEntitiesWithContract
                rw [hidx]
                simpa using h1
              exact typed_witness_after_insert w1 eid c' e c'.type
                (hD e c'.type hm3)
            · have he : e = eid := by simpa using h1
              subst he
              exact new_witness_after_insert w1 e c'
          · rw [alookup_aset_ne _ _ _ _ ht] at hm2
            exact typed_witness_after_insert w1 eid c' e t (hD e t hm2)

lemma indexSound_addContract (w : EWorld α) (eid : String) (c : Contract α)
    (hw : IndexSound w) : IndexSound (addContract w eid c).1 := by
  cases halo : alookup w.entities eid with
  | none =>
      simp only [addContract, halo]
      exact hw
  | some contracts =>
      cases hval : validate c with
      | error msg =>
          simp only [addContract, halo, hval]
          exact hw
      | ok c' =>
          simp only [addContract, halo, hval]
          split
          · refine indexSound_insert _ eid c' _
              (indexSound_evictLoop eid _ _ w hw) ?_
            rw [evictLoop_entities_map_fst]
            exact mem_of_alookup_eq_some _ _ _ halo
          · exact indexSound_evictLoop eid _ _ w hw

lemma indexSound_foldAdd (eid : String) (cs : List (Contract α)) :
    ∀ (acc : EWorld α × Bool), IndexSound acc.1 →
      IndexSound ((cs.foldl
        (fun (acc : EWorld α × Bool) c =>
          if acc.2 then addContract acc.1 eid c else acc) acc)).1 := by
  induction cs with
  | nil =>
      intro acc h
      exact h
  | cons c rest ih =>
      intro acc h
      rw [List.foldl_cons]
      apply ih
      by_cases hb : acc.2 = true
      · rw [if_pos hb]
        exact indexSound_addContract _ _ _ h
      · rw [if_neg hb]
        exact h

lemma indexSound_createEntity (w : EWorld α) (id : String)
    (cs : List (Contract α)) (hw : IndexSound w) :
    IndexSound (createEntity w id cs).1 := by
  by_cases h : ((alookup w.entities id).isSome = true)
  · unfold createEntity
    rw [if_pos h]
    exact hw
  · have halo : alookup w.entities id = none := by
      cases halo : alookup w.entities id with
      | none => rfl
      | some v => rw [halo] at h; exact absurd rfl h
    have hw1 : IndexSound
        ({ w with entities := w.entities ++ [(id, [])] } : EWorld α) := by
      obtain ⟨hA, hB, hC, hD⟩ := hw
      refine ⟨?_, hB, hC, ?_⟩
      · show ((w.entities ++ [(id, [])]).map Prod.fst).Nodup
        rw [List.map_append, List.nodup_append]
        refine ⟨hA, by simp, ?_⟩
        intro a ha hb
        simp only [List.map_cons, List.map_nil, List.mem_singleton] at hb
        subst hb
        exact not_mem_of_alookup_eq_none _ _ halo ha
      · intro e t hmem
        have hmem' : e ∈ getEntitiesWithContract w t := hmem
        obtain ⟨c0, hc0, hc0t⟩ := hD e t hmem'
        by_cases he : e = id
        · subst he
          have hnil : contractsOf w e = [] := by
            unfold contractsOf
            rw [halo]
            rfl
          rw [hnil] at hc0
          exact absurd hc0 (List.not_mem_nil c0)
        · show ∃ c1 ∈ (alookup (w.entities ++ [(id, [])]) e).getD [],
            c1.type = t
          rw [alookup_append_ne _ _ _ _ he]
          exact ⟨c0, hc0, hc0t⟩
    have hfold := indexSound_foldAdd id cs
      ({ w with entities := w.entities ++ [(id, [])] }, true) hw1
    simp only [createEntity, halo, Option.isSome_none, Bool.false_eq_true,
      if_false]
    split
    · exact hfold
    · exact hfold

lemma removeContractInternal_lookup_self (w : EWorld α) (eid : String)
    (c : Contract α) (cur : List (Contract α))
    (halo : alookup w.entities eid = some cur) :
    alookup (removeContractInternal w eid c).entities eid =
      some (cur.erase c) := by
  unfold removeContractInternal
  rw [halo]
  by_cases hc : c ∈ cur
  · simp only [hc, if_true]
    show alookup (aset w.entities eid (cur.erase c)) eid = some (cur.erase c)
    exact alookup_aset_self _ _ _
  · simp only [hc, if_false]
    rw [halo, List.erase_of_not_mem hc]

lemma foldRemove_lookup_self (eid : String) :
    ∀ (snapshot : List (Contract α)) (w : EWorld α)
      (cur : List (Contract α)), alookup w.entities eid = some cur →
      alookup ((snapshot.foldl
        (fun acc c => removeContractInternal acc eid c) w)).entities eid =
        some (snapshot.foldl (fun l c => l.erase c) cur) := by
  intro snapshot
  induction snapshot with
  | nil =>
      intro w cur h
      exact h
  | cons c rest ih =>
      intro w cur h
      rw [List.foldl_cons, List.foldl_cons]
      exact ih _ _ (removeContractInternal_lookup_self w eid c cur h)

lemma indexSound_foldRemove (eid : String) :
    ∀ (snapshot : List (Contract α)) (w : EWorld α), IndexSound w →
      IndexSound (snapshot.foldl
        (fun acc c => removeContractInternal acc eid c) w) := by
  intro snapshot
  induction snapshot with
  | nil =>
      intro w hw
      exact hw
  | cons c rest ih =>
      intro w hw
      rw [List.foldl_cons]
      exact ih _ (indexSound_removeContractInternal w eid c hw)

lemma indexSound_removeEntity (w : EWorld α) (id : String)
    (hw : IndexSound w) : IndexSound (removeEntity w id) := by
  cases halo : alookup w.entities id with
  | none =>
      unfold removeEntity
      rw [halo]
      exact hw
  | some cs =>
      have hw1 := indexSound_foldRemove id cs w hw
      have hlook := foldRemove_lookup_self id cs w cs halo
      rw [foldl_erase_self] at hlook
      unfold removeEntity
      rw [halo]
      obtain ⟨hA1, hB1, hC1, hD1⟩ := hw1
      refine ⟨?_, hB1, hC1, ?_⟩
      · show ((adelete ((cs.foldl
          (fun acc c => removeContractInternal acc id c) w)).entities
          id).map Prod.fst).Nodup
        exact hA1.sublist (adelete_map_fst_sublist _ _)
      · intro e t hmem
        have hmem' : e ∈ getEntitiesWithContract
            (cs.foldl (fun acc c => removeContractInternal acc id c) w) t :=
          hmem
        obtain ⟨c0, hc0, hc0t⟩ := hD1 e t hmem'
        by_cases he : e = id
        · subst he
          have hnil : contractsOf
              (cs.foldl (fun acc c => removeContractInternal acc e c) w) e =
              [] := by
            unfold contractsOf
            rw [hlook]
            rfl
          rw [hnil] at hc0
          exact absurd hc0 (List.not_mem_nil c0)
        · show ∃ c1 ∈ (alookup (adelete ((cs.foldl
            (fun acc c => removeContractInternal acc id c) w)).entities id)
            e).getD [], c1.type = t
          rw [alookup_adelete_ne _ _ _ he]
          exact ⟨c0, hc0, hc0t⟩

lemma indexSound_removeContract (w : EWorld α) (id t : String)
    (hw : IndexSound w) : IndexSound (removeContract w id t) := by
  unfold removeContract
  cases h : getContract w id t with
  | none => exact hw
  | some c => exact indexSound_removeContractInternal w id c hw

lemma indexSound_empty : IndexSound (EWorld.empty : EWorld α) := by
  refine ⟨by simp [empty], by simp [empty], ?_, ?_⟩
  · intro t
    show ((alookup ([] : List (String × List String)) t).getD []).Nodup
    rw [alookup_nil]
    simp
  · intro e t hmem
    have h0 : e ∈ ((alookup ([] : List (String × List String)) t).getD []) :=
      hmem
    rw [alookup_nil] at h0
    exact absurd h0 (by simp)

lemma getContract_isSome_of_typed (w : EWorld α) (e t : String)
    (h : ∃ c0 ∈ contractsOf w e, c0.type = t) :
    (getContract w e t).isSome = true := by
  obtain ⟨c0, hm, htt⟩ := h
  unfold getContract
  cases halo : alookup w.entities e with
  | none =>
      unfold contractsOf at hm
      rw [halo] at hm
      exact absurd hm (by simp)
  | some cs =>
      unfold contractsOf at hm
      rw [halo] at hm
      simp only [Option.getD_some] at hm
      show ((cs.find? (fun c1 => c1.type == t)).isSome = true)
      cases hf : cs.find? (fun c1 => c1.type == t) with
      | none =>
          rw [List.find?_eq_none] at hf
          have h1 := hf c0 hm
          simp [htt] at h1
      | some c1 => rfl

end EWorld

lemma indexSound_stepOp {α : Type} [LinearOrderedField α] (w : EWorld α)
    (op : Op α) (hw : EWorld.IndexSound w) :
    EWorld.IndexSound (stepOp w op) := by
  cases op with
  | create id cs => exact EWorld.indexSound_createEntity w id cs hw
  | remove id => exact EWorld.indexSound_removeEntity w id hw
  | add id c => exact EWorld.indexSound_addContract w id c hw
  | removeKind id t => exact EWorld.indexSound_removeContract w id t hw

/-- Every state reachable through the store operations satisfies the
structural invariant: unique keys, duplicate-free index entries, and every
index membership backed by a stored contract of the kind. -/
lemma indexSound_runOps {α : Type} [LinearOrderedField α] (ops : List (Op α)) :
    EWorld.IndexSound (runOps ops) := by
  unfold runOps
  have hgen : ∀ (l : List (Op α)) (w : EWorld α), EWorld.IndexSound w →
      EWorld.IndexSound (l.foldl stepOp w) := by
    intro l
    induction l with
    | nil =>
        intro w hw
        exact hw
    | cons o rest ih =>
        intro w hw
        rw [List.foldl_cons]
        exact ih _ (indexSound_stepOp w o hw)
  exact hgen ops _ EWorld.indexSound_empty

/-- C3 (amended): when the effective maximum for kind K is a positive
integer `n` (the entity's `contract_limit` override, else the global
default, else the unbounded sentinel), a successful `addContract` of a
K-contract first evicts the oldest K-components until fewer than `n` remain
— firing their removal hooks oldest-first, before the add hook — and then
appends the new record; afterwards the entity holds at most `n`
K-components, and when `n = 1` querying K returns the newly added record.
As stated the claim fails: the bound is enforced only at adds of kind K (a
later `contract_limit` lowering does not retroactively evict), and for
`n > 1` an at-limit add leaves the oldest *surviving* K-component as the
query result, not the newly added one (see the counterexample). -/
theorem C3_cardinality_eviction (w : EWorld ℚ) (e : String) (c c' : Contract ℚ)
    (n : ℕ) (hn : 1 ≤ n)
    (hent : (alookup w.entities e).isSome = true)
    (hval : validate c = .ok c')
    (hmax : EWorld.getMaxContractsAllowed c'.type
      (EWorld.getContract w e "contract_limit") = ((n : ℕ) : ℚ)) :
    (EWorld.addContract w e c).2 = true ∧
    EWorld.typedContracts (EWorld.addContract w e c).1 e c'.type =
      (EWorld.typedContracts w e c'.type).drop
        ((EWorld.typedContracts w e c'.type).length + 1 - n) ++ [c'] ∧
    (EWorld.typedContracts (EWorld.addContract w e c).1 e c'.type).length ≤ n ∧
    (EWorld.addContract w e c).1.log = w.log ++
      ((EWorld.typedContracts w e c'.type).take
        ((EWorld.typedContracts w e c'.type).length + 1 - n)).map
        (EcsEvent.contractRemoved e) ++ [.contractAdded e c'] ∧
    (n = 1 →
      EWorld.getContract (EWorld.addContract w e c).1 e c'.type = some c') := by
  obtain ⟨h1, h2, h3, h4, h5⟩ := EWorld.addContract_spec w e c c' n hn hent hval hmax
  refine ⟨h1, h2, ?_, h3, ?_⟩
  · rw [h2]
    simp only [List.length_append, List.length_drop, List.length_singleton]
    omega
  · intro hone
    subst hone
    rw [EWorld.getContract_eq_head, h2]
    simp

/-- Witness for C3: adding a second `entrance` (global limit 1) to an entity
holding one evicts the old record and the query returns the new one. -/
theorem C3_cardinality_witness :
    (EWorld.addContract oneEntranceWorld "E" entranceB).2 = true ∧
    EWorld.getContract (EWorld.addContract oneEntranceWorld "E" entranceB).1
      "E" "entrance" = some entranceB := by
  have h := C3_cardinality_eviction oneEntranceWorld "E" entranceB entranceB 1
    (by decide) (by decide) (by rfl) (by decide)
  exact ⟨h.1, h.2.2.2.2 rfl⟩

/-- Counterexample to C3 as stated: `portable` has global limit 3; with
three portables held, adding a fourth evicts only the oldest, and the query
afterwards returns the second-oldest record — not the newly added one. -/
theorem C3_cardinality_counterexample :
    EWorld.getMaxContractsAllowed "portable"
      (EWorld.getContract threePortablesWorld "E" "contract_limit") = (3 : ℚ) ∧
    (EWorld.typedContracts threePortablesWorld "E" "portable").length = 3 ∧
    (EWorld.addContract threePortablesWorld "E" (portableW 4)).2 = true ∧
    EWorld.getContract (EWorld.addContract threePortablesWorld "E" (portableW 4)).1
      "E" "portable" = some (portableW 2) ∧
    portableW 2 ≠ portableW 4 := by
  refine ⟨by decide, by decide, by decide, by decide, by decide⟩

/-- C5 (code bug): `ContractRegistry.validate` accepts a durability record
whose health exceeds maxHealth — `AnyContractSchema` embeds the unrefined
`DurabilityObjectSchema` — while the refined `DurabilitySchema` registered
for the kind would reject it; consequently `addContract` stores the record
and it is observable through `getContract`. -/
theorem C5_durability_validation_gap :
    validate (Contract.durability (2 : ℚ) 1 none) =
      .ok (Contract.durability 2 1 none) ∧
    durabilityRefinedOk (2 : ℚ) 1 none = false ∧
    EWorld.getContract
      (EWorld.addContract
        (EWorld.createEntity (EWorld.empty : EWorld ℚ) "E" []).1 "E"
        (Contract.durability 2 1 none)).1 "E" "durability" =
      some (Contract.durability 2 1 none) := by
  refine ⟨rfl, by decide, by decide⟩

/-- C6: for an entity holding a schema-valid durability record (`0 < m`,
armor nonnegative when present) at the default durability cardinality of 1,
`damage` computes `actual = amount·(1 − min(0.75, 0.01·armor))` (armor 0
when absent); when `actual ≤ 0` it returns `false` leaving the state
untouched, otherwise it records the damage event, writes back
`health' = max(0, h − actual)` and destroys the entity exactly when
`health' = 0`.  The entity-key uniqueness hypothesis holds in every state
built through the store operations. -/
theorem C6_damage_spec (s : DurWorld ℚ) (e : String) (amount : ℚ)
    (src : Option String) (h m : ℚ) (a : Option ℚ)
    (hdur : EWorld.getContract s.ecs e "durability" =
      some (Contract.durability h m a))
    (hm : 0 < m) (ha : optNonneg a = true)
    (hlim : EWorld.getMaxContractsAllowed "durability"
      (EWorld.getContract s.ecs e "contract_limit") = (1 : ℚ))
    (hkeys : (s.ecs.entities.map Prod.fst).Nodup) :
    (specActualDamage amount a ≤ 0 → damage s e amount src = (s, false)) ∧
    (0 < specActualDamage amount a →
      (damage s e amount src).2 = true ∧
      (damage s e amount src).1.damageEvents =
        s.damageEvents ++ [⟨e, specActualDamage amount a, src, s.now⟩] ∧
      (max 0 (h - specActualDamage amount a) = 0 →
        EWorld.hasEntity (damage s e amount src).1.ecs e = false) ∧
      (max 0 (h - specActualDamage amount a) ≠ 0 →
        EWorld.getContract (damage s e amount src).1.ecs e "durability" =
          some (Contract.durability (max 0 (h - specActualDamage amount a)) m a))) := by
  have hact : calculateActualDamage amount a = specActualDamage amount a := by
    unfold calculateActualDamage specActualDamage
    cases a with
    | none =>
        simp only [Option.getD_none, zero_mul]
        rw [min_eq_right (by norm_num : (0 : ℚ) ≤ 75 / 100)]
        ring
    | some x =>
        simp only [Option.getD_some]
        by_cases hx : x ≤ 0
        · have hx0 : x = 0 := le_antisymm hx (by simpa [optNonneg] using ha)
          subst hx0
          rw [if_pos le_rfl]
          rw [zero_mul, min_eq_right (by norm_num : (0 : ℚ) ≤ 75 / 100)]
          ring
        · rw [if_neg hx]
  constructor
  · intro hle
    have hle' : calculateActualDamage amount a ≤ 0 := by rw [hact]; exact hle
    simp only [damage, hdur, if_pos hle']
  · intro hpos
    have hnle : ¬(calculateActualDamage amount a ≤ 0) := by
      rw [hact]; exact not_le.mpr hpos
    have hvalup : validate
        (Contract.durability (max 0 (h - specActualDamage amount a)) m a) =
        .ok (Contract.durability (max 0 (h - specActualDamage amount a)) m a) := by
      have d1 : decide ((0 : ℚ) ≤ max 0 (h - specActualDamage amount a)) = true :=
        decide_eq_true (le_max_left 0 _)
      have d2 : decide ((0 : ℚ) < m) = true := decide_eq_true hm
      simp [validate, d1, d2, ha]
    have hent : (alookup s.ecs.entities e).isSome = true :=
      EWorld.entity_isSome_of_getContract hdur
    have hmax1 : EWorld.getMaxContractsAllowed
        (Contract.durability (max 0 (h - specActualDamage amount a)) m a).type
        (EWorld.getContract s.ecs e "contract_limit") = ((1 : ℕ) : ℚ) := by
      show EWorld.getMaxContractsAllowed "durability"
        (EWorld.getContract s.ecs e "contract_limit") = ((1 : ℕ) : ℚ)
      rw [hlim]
      norm_num
    obtain ⟨a1, a2, a3, a4, a5⟩ := EWorld.addContract_spec s.ecs e
      (Contract.durability (max 0 (h - specActualDamage amount a)) m a)
      (Contract.durability (max 0 (h - specActualDamage amount a)) m a)
      1 le_rfl hent hvalup hmax1
    have hnle' : ¬(specActualDamage amount a ≤ 0) := not_le.mpr hpos
    simp only [damage, hdur, hact, if_neg hnle']
    refine ⟨?_, ?_, ?_, ?_⟩
    · first
      | trivial
      | (split <;> rfl)
    · first
      | trivial
      | (split <;> rfl)
    · intro hz
      rw [if_pos (le_of_eq hz)]
      show EWorld.hasEntity (EWorld.removeEntity _ e) e = false
      refine EWorld.removeEntity_hasEntity_false _ e ?_
      show (((EWorld.addContract s.ecs e
        (Contract.durability (max 0 (h - specActualDamage amount a)) m a)).1.entities).map
          Prod.fst).Nodup
      rw [a5]
      exact hkeys
    · intro hnz
      have hgt : ¬(max 0 (h - specActualDamage amount a) ≤ 0) := by
        rcases lt_or_eq_of_le (le_max_left 0 (h - specActualDamage amount a)) with hlt | heq
        · exact not_le.mpr hlt
        · exact absurd heq.symm hnz
      rw [if_neg hgt]
      show EWorld.getContract (EWorld.addContract s.ecs e
        (Contract.durability (max 0 (h - specActualDamage amount a)) m a)).1
          e "durability" = _
      rw [show "durability" = (Contract.durability
        (max 0 (h - specActualDamage amount a)) m a).type from rfl]
      rw [EWorld.getContract_eq_head, a2]
      simp [List.drop_length]

/-- Witness for C6: an entity with durability 5/5 and no armor takes 10
damage — the actual damage is 10, the new health clamps to 0 and the entity
is destroyed. -/
theorem C6_damage_witness :
    (EWorld.getContract exampleDurWorld.ecs "E" "durability" =
        some (Contract.durability 5 5 none) ∧
      (0 : ℚ) < 5 ∧ optNonneg (none : Option ℚ) = true ∧
      EWorld.getMaxContractsAllowed "durability"
        (EWorld.getContract exampleDurWorld.ecs "E" "contract_limit") = (1 : ℚ) ∧
      (exampleDurWorld.ecs.entities.map Prod.fst).Nodup ∧
      0 < specActualDamage 10 none) ∧
    (damage exampleDurWorld "E" 10 none).2 = true ∧
    EWorld.hasEntity (damage exampleDurWorld "E" 10 none).1.ecs "E" = false := by
  have hth := C6_damage_spec exampleDurWorld "E" 10 none 5 5 none (by decide)
    (by norm_num) (by decide) (by decide) (by decide)
  have hpos : (0 : ℚ) < specActualDamage 10 none := by
    norm_num [specActualDamage]
  have h2 := hth.2 hpos
  refine ⟨⟨by decide, by norm_num, by decide, by decide, by decide, hpos⟩,
    h2.1, h2.2.2.1 ?_⟩
  norm_num [specActualDamage]

/-- C2 (amended): at every state reachable by any sequence of
`createEntity`, `removeEntity`, `addContract` and `removeContract`
operations, membership in the inverted index implies a stored contract: for
every entity `e` and kind `t`, if `e` appears in
`getEntitiesWithContract t` then `getContract e t` returns a component.
The converse direction of the claimed equivalence is false — see the
counterexample: `removeContractInternal` drops the entity from the kind's
index entry even when the entity still holds another contract of the kind,
so a stored contract can be unreachable through the index. -/
theorem C2_index_membership (ops : List (Op ℚ)) (e t : String)
    (h : e ∈ EWorld.getEntitiesWithContract (runOps ops) t) :
    (EWorld.getContract (runOps ops) e t).isSome = true :=
  EWorld.getContract_isSome_of_typed (runOps ops) e t
    ((indexSound_runOps ops).2.2.2 e t h)

theorem C2_index_membership_witness :
    "E" ∈ EWorld.getEntitiesWithContract
      (runOps [Op.create "E" [entranceA]]) "entrance" ∧
    (EWorld.getContract (runOps [Op.create "E" [entranceA]])
      "E" "entrance").isSome = true :=
  ⟨by decide,
    C2_index_membership [Op.create "E" [entranceA]] "E" "entrance" (by decide)⟩

/-- C2 counterexample to the store-to-index direction: after adding two
portables to an entity (within the global limit of three) and removing one,
`getContract` still returns a portable while the entity is absent from the
inverted index for `portable` — `removeContractInternal` deleted the index
entry outright. -/
theorem C2_index_membership_counterexample :
    (EWorld.getContract portablePairWorld "E" "portable").isSome = true ∧
    "E" ∉ EWorld.getEntitiesWithContract portablePairWorld "portable" := by
  decide

section MovementLemmas

lemma getChunk_ecs (s : MoveState) (k : ChunkKey) :
    (getChunk s k).2.ecs = s.ecs := by
  simp only [getChunk]
  cases halo : alookup s.chunks (ChunkUtils.toString k) <;> rfl

lemma foldl_state_ecs {γ : Type}
    (f : (Collision × MoveState) → γ → Collision × MoveState)
    (hf : ∀ acc k, ((f acc k).2).ecs = acc.2.ecs) :
    ∀ (l : List γ) (acc : Collision × MoveState),
      ((l.foldl f acc).2).ecs = acc.2.ecs := by
  intro l
  induction l with
  | nil => intro acc; rfl
  | cons k rest ih =>
      intro acc
      rw [List.foldl_cons, ih]
      exact hf acc k

lemma staticSweep_ecs (s : MoveState) (a b : Vec3 ℝ) (shape : AABB ℝ) :
    ((staticSweep s a b shape).2).ecs = s.ecs := by
  simp only [staticSweep]
  refine foldl_state_ecs _ ?_ _ _
  intro acc k
  exact getChunk_ecs acc.2 k

lemma performSweptAABB_ecs (s : MoveState) (e : String) (a b : Vec3 ℝ)
    (shape : AABB ℝ) : ((performSweptAABB s e a b shape).2).ecs = s.ecs := by
  simp only [performSweptAABB]
  exact staticSweep_ecs s a b shape

end MovementLemmas

namespace Vec3Utils

lemma length_nonneg (v : Vec3 ℝ) : 0 ≤ length v := Real.sqrt_nonneg _

lemma length_multiply (v : Vec3 ℝ) (s : ℝ) :
    length (multiply v s) = |s| * length v := by
  unfold length multiply
  dsimp only
  rw [show v.x * s * (v.x * s) + v.y * s * (v.y * s) + v.z * s * (v.z * s) =
    s * s * (v.x * v.x + v.y * v.y + v.z * v.z) by ring]
  rw [Real.sqrt_mul (mul_self_nonneg s), Real.sqrt_mul_self_eq_abs]

lemma length_normalize (v : Vec3 ℝ) (h : length v ≠ 0) :
    length (normalize v) = 1 := by
  unfold normalize
  rw [if_neg h, length_multiply,
    abs_of_nonneg (one_div_nonneg.mpr (length_nonneg v))]
  exact one_div_mul_cancel h

lemma subtract_add_cancel (p d : Vec3 ℝ) : subtract (add p d) p = d := by
  unfold add subtract
  cases d with
  | mk dx dy dz =>
      dsimp only
      simp only [Vec3.mk.injEq]
      refine ⟨by ring, by ring, by ring⟩

lemma distance_self (p : Vec3 ℝ) : distance p p = 0 := by
  unfold distance subtract length
  simp

lemma dist_add_multiply (p dir : Vec3 ℝ) (c : ℝ) :
    distance (add p (multiply dir c)) p = |c| * length dir := by
  unfold distance
  rw [subtract_add_cancel, length_multiply]

end Vec3Utils

section CollisionBounds

lemma checkStaticGrid_distance_nonneg (chunk : ChunkData) (m : AABB ℝ)
    (d : Vec3 ℝ) : 0 ≤ (checkStaticGrid chunk m d).distance := by
  unfold checkStaticGrid
  split
  · exact Vec3Utils.length_nonneg _
  · dsimp only
    split
    · exact mul_nonneg (Vec3Utils.length_nonneg _) (by norm_num)
    · exact Vec3Utils.length_nonneg _

lemma checkStaticSolids_distance_nonneg (s : MoveState) (m : AABB ℝ)
    (d : Vec3 ℝ) (k : ChunkKey) :
    0 ≤ ((checkStaticSolids s m d k).1).distance :=
  checkStaticGrid_distance_nonneg _ _ _

lemma checkDynamicSolid_distance_nonneg (w : EWorld ℝ) (m : AABB ℝ)
    (d : Vec3 ℝ) (oid : String) :
    0 ≤ (checkDynamicSolid w m d oid).distance := by
  unfold checkDynamicSolid
  dsimp only
  repeat' split
  all_goals try dsimp only
  all_goals
    first
      | exact mul_nonneg (le_max_left _ _) (Vec3Utils.length_nonneg _)
      | exact Vec3Utils.length_nonneg _

lemma foldl_collision_pair_inv {γ : Type} (D : ℝ)
    (f : (Collision × MoveState) → γ → Collision × MoveState)
    (hf : ∀ acc k, (f acc k).1 = acc.1 ∨
      (((f acc k).1).hit = true ∧ ((f acc k).1).distance < acc.1.distance ∧
        0 ≤ ((f acc k).1).distance)) :
    ∀ (l : List γ) (acc : Collision × MoveState),
      (0 ≤ acc.1.distance ∧ acc.1.distance ≤ D ∧
        (acc.1.hit = true → acc.1.distance < D)) →
      (0 ≤ ((l.foldl f acc).1).distance ∧
        ((l.foldl f acc).1).distance ≤ D ∧
        (((l.foldl f acc).1).hit = true → ((l.foldl f acc).1).distance < D)) := by
  intro l
  induction l with
  | nil => intro acc h; exact h
  | cons k rest ih =>
      intro acc h
      rw [List.foldl_cons]
      rcases hf acc k with heq | ⟨hh, hlt, hnn⟩
      · exact ih (f acc k) (by rw [heq]; exact h)
      · exact ih (f acc k)
          ⟨hnn, le_trans (le_of_lt hlt) h.2.1,
            fun _ => lt_of_lt_of_le hlt h.2.1⟩

lemma foldl_collision_inv {γ : Type} (D : ℝ) (g : Collision → γ → Collision)
    (hg : ∀ acc k, g acc k = acc ∨
      ((g acc k).hit = true ∧ (g acc k).distance < acc.distance ∧
        0 ≤ (g acc k).distance)) :
    ∀ (l : List γ) (acc : Collision),
      (0 ≤ acc.distance ∧ acc.distance ≤ D ∧
        (acc.hit = true → acc.distance < D)) →
      (0 ≤ (l.foldl g acc).distance ∧ (l.foldl g acc).distance ≤ D ∧
        ((l.foldl g acc).hit = true → (l.foldl g acc).distance < D)) := by
  intro l
  induction l with
  | nil => intro acc h; exact h
  | cons k rest ih =>
      intro acc h
      rw [List.foldl_cons]
      rcases hg acc k with heq | ⟨hh, hlt, hnn⟩
      · exact ih (g acc k) (by rw [heq]; exact h)
      · exact ih (g acc k)
          ⟨hnn, le_trans (le_of_lt hlt) h.2.1,
            fun _ => lt_of_lt_of_le hlt h.2.1⟩

/-- The static phase never reports a collision farther than the full
displacement: its distance is nonnegative, at most the displacement length,
and strictly below it whenever a hit is reported (every replacing candidate
is strictly closer than the running collision, which starts at the full
length with no hit). -/
lemma staticSweep_collision_inv (s : MoveState) (a b : Vec3 ℝ)
    (shape : AABB ℝ) :
    0 ≤ ((staticSweep s a b shape).1).distance ∧
    ((staticSweep s a b shape).1).distance ≤
      Vec3Utils.length (Vec3Utils.subtract b a) ∧
    (((staticSweep s a b shape).1).hit = true →
      ((staticSweep s a b shape).1).distance <
        Vec3Utils.length (Vec3Utils.subtract b a)) := by
  simp only [staticSweep]
  refine foldl_collision_pair_inv _ _ ?_ _ _
    ⟨Vec3Utils.length_nonneg _, le_refl _, fun h => Bool.noConfusion h⟩
  intro acc k
  dsimp only
  split
  · next h => exact Or.inr ⟨h.1, h.2, checkStaticSolids_distance_nonneg _ _ _ _⟩
  · exact Or.inl rfl

/-- The swept-AABB result never reports a collision farther than the full
displacement: both phases only replace the running collision with strictly
closer hits. -/
lemma performSweptAABB_collision_inv (s : MoveState) (e : String)
    (a b : Vec3 ℝ) (shape : AABB ℝ) :
    0 ≤ ((performSweptAABB s e a b shape).1).distance ∧
    ((performSweptAABB s e a b shape).1).distance ≤
      Vec3Utils.length (Vec3Utils.subtract b a) ∧
    (((performSweptAABB s e a b shape).1).hit = true →
      ((performSweptAABB s e a b shape).1).distance <
        Vec3Utils.length (Vec3Utils.subtract b a)) := by
  simp only [performSweptAABB]
  refine foldl_collision_inv _ _ ?_ _ _ (staticSweep_collision_inv s a b shape)
  intro acc k
  dsimp only
  split
  · next h => exact Or.inr ⟨h.1, h.2, checkDynamicSolid_distance_nonneg _ _ _ _⟩
  · exact Or.inl rfl

/-- `clampMovementToCollision` never moves past the collision: the clamped
position stays within the displacement length of the start whenever the
collision distance is below that length. -/
lemma dist_clamp_bound (p endP : Vec3 ℝ) (col : Collision)
    (hnn : 0 ≤ col.distance)
    (hlt : col.distance < Vec3Utils.length (Vec3Utils.subtract endP p)) :
    Vec3Utils.distance (clampMovementToCollision p endP col) p ≤
      Vec3Utils.length (Vec3Utils.subtract endP p) := by
  have hL : 0 < Vec3Utils.length (Vec3Utils.subtract endP p) :=
    lt_of_le_of_lt hnn hlt
  simp only [clampMovementToCollision]
  rw [Vec3Utils.dist_add_multiply, abs_of_nonneg (le_max_left _ _)]
  refine mul_le_of_le_one_left (le_of_lt hL) ?_
  refine le_of_lt (max_lt zero_lt_one ?_)
  have hdiv := (div_lt_one hL).mpr hlt
  have hε : (0 : ℝ) < collisionEpsilon := by norm_num [collisionEpsilon]
  linarith

lemma foldl_dyn_min {γ : Type} (cand : γ → Collision) :
    ∀ (l : List γ) (acc : Collision),
      ((l.foldl (fun a k =>
        if (cand k).hit = true ∧ (cand k).distance < a.distance
        then cand k else a) acc).distance ≤ acc.distance) ∧
      (∀ k ∈ l, (cand k).hit = true →
        (l.foldl (fun a k =>
          if (cand k).hit = true ∧ (cand k).distance < a.distance
          then cand k else a) acc).distance ≤ (cand k).distance) := by
  intro l
  induction l with
  | nil =>
      intro acc
      exact ⟨le_refl _, fun k hk => absurd hk (List.not_mem_nil k)⟩
  | cons k0 rest ih =>
      intro acc
      rw [List.foldl_cons]
      constructor
      · by_cases h : ((cand k0).hit = true ∧ (cand k0).distance < acc.distance)
        · rw [if_pos h]
          exact le_trans (ih (cand k0)).1 (le_of_lt h.2)
        · rw [if_neg h]
          exact (ih acc).1
      · intro k hk hhit
        rcases List.mem_cons.mp hk with rfl | hk'
        · by_cases h : ((cand k).hit = true ∧ (cand k).distance < acc.distance)
          · rw [if_pos h]
            exact (ih (cand k)).1
          · rw [if_neg h]
            have hnlt : ¬((cand k).distance < acc.distance) :=
              fun hlt => h ⟨hhit, hlt⟩
            exact le_trans (ih acc).1 (not_lt.mp hnlt)
        · by_cases h : ((cand k0).hit = true ∧ (cand k0).distance < acc.distance)
          · rw [if_pos h]
            exact (ih (cand k0)).2 k hk' hhit
          · rw [if_neg h]
            exact (ih acc).2 k hk' hhit

lemma foldl_keep_fst {γ : Type}
    (f : (Collision × MoveState) → γ → Collision × MoveState)
    (P : MoveState → Prop) (good : γ → Prop)
    (hf : ∀ acc k, P acc.2 → good k → (f acc k).1 = acc.1 ∧ P ((f acc k).2)) :
    ∀ (l : List γ) (acc : Collision × MoveState),
      (∀ k ∈ l, good k) → P acc.2 → ((l.foldl f acc).1 = acc.1) := by
  intro l
  induction l with
  | nil => intro acc _ _; rfl
  | cons k0 rest ih =>
      intro acc hgood hP
      rw [List.foldl_cons]
      obtain ⟨h1, h2⟩ := hf acc k0 hP (hgood k0 (List.mem_cons_self k0 rest))
      rw [ih (f acc k0) (fun k hk => hgood k (List.mem_cons_of_mem k0 hk)) h2,
        h1]

lemma foldl_dyn_keep {γ : Type} (cand : γ → Collision) :
    ∀ (l : List γ) (acc : Collision),
      (∀ k ∈ l, ¬((cand k).hit = true ∧ (cand k).distance < acc.distance)) →
      l.foldl (fun a k =>
        if (cand k).hit = true ∧ (cand k).distance < a.distance
        then cand k else a) acc = acc := by
  intro l
  induction l with
  | nil => intro acc _; rfl
  | cons k0 rest ih =>
      intro acc h
      rw [List.foldl_cons, if_neg (h k0 (List.mem_cons_self k0 rest))]
      exact ih acc (fun k hk => h k (List.mem_cons_of_mem k0 hk))

end CollisionBounds

/-- C10: `attemptMove` is observationally read-only on the entity store:
the state it returns carries the caller's ECS world unchanged (only the
chunk-manager cache is touched); positions change only through the separate
`moveEntity` write-back. -/
theorem C10_attemptMove_frame (s : MoveState) (e : String) (want : Vec3 ℝ)
    (dt : ℝ) : ((attemptMove s e want dt).2).ecs = s.ecs := by
  cases hm : EWorld.getContract s.ecs e "mobility" with
  | none => simp only [attemptMove, hm]
  | some c =>
      cases c <;> simp only [attemptMove, hm]
      case mobility p v ms acc =>
        cases hs : EWorld.getContract s.ecs e "shape" with
        | none => simp only [hs]
        | some c2 =>
            cases c2 <;> simp only [hs]
            case shape bounds geo =>
              split
              · rfl
              · split
                · dsimp only
                  exact performSweptAABB_ecs s e p _ bounds
                · dsimp only
                  exact performSweptAABB_ecs s e p _ bounds

/-- C7: `attemptMove` without a mobility contract fails with position
`(0,0,0)` and the reason `"No mobility contract"` (which contains
`"mobility"`); with mobility but without a shape contract it fails with the
entity's current mobility position and the reason `"No shape contract"`
(which contains `"shape"`). -/
theorem C7_missing_contract_errors (s : MoveState) (e : String) (want : Vec3 ℝ)
    (dt : ℝ) :
    (EWorld.getContract s.ecs e "mobility" = none →
      (attemptMove s e want dt).1 =
        ⟨false, ⟨0, 0, 0⟩, some ("No " ++ "mobility" ++ " contract"), none⟩) ∧
    (∀ (p : Vec3 ℝ) (v : Option (Vec3 ℝ)) (ms acc : Option ℝ),
      EWorld.getContract s.ecs e "mobility" = some (.mobility p v ms acc) →
      EWorld.getContract s.ecs e "shape" = none →
      (attemptMove s e want dt).1 =
        ⟨false, p, some ("No " ++ "shape" ++ " contract"), none⟩) := by
  constructor
  · intro h
    simp only [attemptMove, h]
    rfl
  · intro p v ms acc hm hs
    simp only [attemptMove, hm, hs]
    rfl

theorem C7_missing_contract_errors_witness :
    EWorld.getContract emptyState.ecs "E" "mobility" = none ∧
    (attemptMove emptyState "E" ⟨1, 0, 0⟩ 1).1 =
      ⟨false, ⟨0, 0, 0⟩, some ("No " ++ "mobility" ++ " contract"), none⟩ ∧
    EWorld.getContract mobilityOnlyState.ecs "E" "mobility" =
      some (.mobility ⟨0, 0, 0⟩ none none none) ∧
    EWorld.getContract mobilityOnlyState.ecs "E" "shape" = none ∧
    (attemptMove mobilityOnlyState "E" ⟨1, 0, 0⟩ 1).1 =
      ⟨false, ⟨0, 0, 0⟩, some ("No " ++ "shape" ++ " contract"), none⟩ :=
  ⟨rfl,
   (C7_missing_contract_errors emptyState "E" ⟨1, 0, 0⟩ 1).1 rfl,
   rfl, rfl,
   (C7_missing_contract_errors mobilityOnlyState "E" ⟨1, 0, 0⟩ 1).2
     ⟨0, 0, 0⟩ none none none rfl rfl⟩

/-- C1: for an entity with mobility (schema-valid `maxSpeed`, i.e. positive
when present) and shape, and any target and `dt ≥ 0`, the position returned
by `attemptMove` is within `maxSpeed · dt` (default 5 when absent) of the
current mobility position: the sub-epsilon early return stays put, the
displacement is the normalized direction scaled by
`min wantDistance (maxSpeed · dt)`, and a collision clamp only shortens
it. -/
theorem C1_speed_clamp (s : MoveState) (e : String) (want : Vec3 ℝ) (dt : ℝ)
    (p : Vec3 ℝ) (v : Option (Vec3 ℝ)) (ms mAcc : Option ℝ) (bounds : AABB ℝ)
    (geo : Option Geometry)
    (hm : EWorld.getContract s.ecs e "mobility" = some (.mobility p v ms mAcc))
    (hs : EWorld.getContract s.ecs e "shape" = some (.shape bounds geo))
    (hdt : 0 ≤ dt) (hms : optPositive ms = true) :
    Vec3Utils.distance (attemptMove s e want dt).1.position p ≤
      ms.getD 5 * dt := by
  have hjs : jsOrNum ms 5 = ms.getD 5 := by
    cases ms with
    | none => rfl
    | some x =>
        have hx : 0 < x := by simpa [optPositive] using hms
        simp [jsOrNum, ne_of_gt hx]
  have hms5 : 0 < ms.getD 5 := by
    cases ms with
    | none => norm_num
    | some x =>
        have hx : 0 < x := by simpa [optPositive] using hms
        simpa using hx
  simp only [attemptMove, hm, hs]
  split
  · dsimp only
    rw [Vec3Utils.distance_self]
    exact mul_nonneg (le_of_lt hms5) hdt
  · rename_i hfar
    have hW : 0 < Vec3Utils.length (Vec3Utils.subtract want p) := by
      have h1 : collisionEpsilon ≤ Vec3Utils.length (Vec3Utils.subtract want p) :=
        not_lt.mp hfar
      have hε : (0 : ℝ) < collisionEpsilon := by norm_num [collisionEpsilon]
      linarith
    have hWne : Vec3Utils.length (Vec3Utils.subtract want p) ≠ 0 := ne_of_gt hW
    have hADnn : 0 ≤ min (Vec3Utils.length (Vec3Utils.subtract want p))
        (jsOrNum ms 5 * dt) :=
      le_min (le_of_lt hW) (by rw [hjs]; exact mul_nonneg (le_of_lt hms5) hdt)
    have hADle : min (Vec3Utils.length (Vec3Utils.subtract want p))
        (jsOrNum ms 5 * dt) ≤ ms.getD 5 * dt := by
      rw [← hjs]
      exact min_le_right _ _
    have key : ∀ c : ℝ, 0 ≤ c →
        Vec3Utils.length (Vec3Utils.subtract
          (Vec3Utils.add p (Vec3Utils.multiply
            (Vec3Utils.normalize (Vec3Utils.subtract want p)) c)) p) = c := by
      intro c hc
      rw [Vec3Utils.subtract_add_cancel, Vec3Utils.length_multiply,
        Vec3Utils.length_normalize _ hWne, mul_one, abs_of_nonneg hc]
    split
    · rename_i hhit
      dsimp only
      refine le_trans (dist_clamp_bound p _ _
        (performSweptAABB_collision_inv s e p _ bounds).1
        ((performSweptAABB_collision_inv s e p _ bounds).2.2 hhit)) ?_
      rw [key _ hADnn]
      exact hADle
    · dsimp only
      unfold Vec3Utils.distance
      rw [key _ hADnn]
      exact hADle

theorem C1_speed_clamp_witness :
    EWorld.getContract moverState.ecs "E" "mobility" =
      some (.mobility ⟨0, 0, 0⟩ none none none) ∧
    EWorld.getContract moverState.ecs "E" "shape" =
      some (.shape ⟨⟨-1, -1, -1⟩, ⟨1, 1, 1⟩⟩ (some .box)) ∧
    (0 : ℝ) ≤ 1 ∧ optPositive (none : Option ℝ) = true ∧
    Vec3Utils.distance (attemptMove moverState "E" ⟨1, 0, 0⟩ 1).1.position
      ⟨0, 0, 0⟩ ≤ (none : Option ℝ).getD 5 * 1 :=
  ⟨rfl, rfl, zero_le_one, rfl,
   C1_speed_clamp moverState "E" ⟨1, 0, 0⟩ 1 ⟨0, 0, 0⟩ none none none
     ⟨⟨-1, -1, -1⟩, ⟨1, 1, 1⟩⟩ (some .box) rfl rfl zero_le_one rfl⟩

/-- C4 (amended): the swept-AABB result is the closest candidate — its
distance is at most the static phase's collision distance and at most every
hitting dynamic candidate's distance — but ties resolve to the STATIC
phase, not the dynamic entity: when no dynamic candidate hits strictly
closer than the static collision (in particular on an exact distance tie),
the reported collision is exactly the static one, so `blockedReason` does
not reference the entity.  The claimed dynamic tie-break is refuted by the
counterexample. -/
theorem C4_closest_candidate (s : MoveState) (e : String) (a b : Vec3 ℝ)
    (shape : AABB ℝ) :
    (∀ oid ∈ dynCandidates s.ecs e,
      (checkDynamicSolid s.ecs (getEntityAABB shape a)
        (Vec3Utils.subtract b a) oid).hit = true →
      ((performSweptAABB s e a b shape).1).distance ≤
        (checkDynamicSolid s.ecs (getEntityAABB shape a)
          (Vec3Utils.subtract b a) oid).distance) ∧
    ((performSweptAABB s e a b shape).1).distance ≤
      ((staticSweep s a b shape).1).distance ∧
    ((∀ oid ∈ dynCandidates s.ecs e,
        ¬((checkDynamicSolid s.ecs (getEntityAABB shape a)
            (Vec3Utils.subtract b a) oid).hit = true ∧
          (checkDynamicSolid s.ecs (getEntityAABB shape a)
            (Vec3Utils.subtract b a) oid).distance <
            ((staticSweep s a b shape).1).distance)) →
      (performSweptAABB s e a b shape).1 = (staticSweep s a b shape).1) := by
  refine ⟨?_, ?_, ?_⟩
  · intro oid hmem hhit
    simp only [performSweptAABB]
    exact (foldl_dyn_min _ _ _).2 oid hmem hhit
  · simp only [performSweptAABB]
    exact (foldl_dyn_min _ _ _).1
  · intro hno
    simp only [performSweptAABB]
    exact foldl_dyn_keep _ _ _ hno

theorem C4_closest_candidate_witness :
    (∀ oid ∈ dynCandidates moverState.ecs "E",
        ¬((checkDynamicSolid moverState.ecs
            (getEntityAABB ⟨⟨-1, -1, -1⟩, ⟨1, 1, 1⟩⟩ ⟨0, 0, 0⟩)
            (Vec3Utils.subtract ⟨1, 0, 0⟩ ⟨0, 0, 0⟩) oid).hit = true ∧
          (checkDynamicSolid moverState.ecs
            (getEntityAABB ⟨⟨-1, -1, -1⟩, ⟨1, 1, 1⟩⟩ ⟨0, 0, 0⟩)
            (Vec3Utils.subtract ⟨1, 0, 0⟩ ⟨0, 0, 0⟩) oid).distance <
            ((staticSweep moverState ⟨0, 0, 0⟩ ⟨1, 0, 0⟩
              ⟨⟨-1, -1, -1⟩, ⟨1, 1, 1⟩⟩).1).distance)) ∧
    (performSweptAABB moverState "E" ⟨0, 0, 0⟩ ⟨1, 0, 0⟩
      ⟨⟨-1, -1, -1⟩, ⟨1, 1, 1⟩⟩).1 =
      (staticSweep moverState ⟨0, 0, 0⟩ ⟨1, 0, 0⟩
        ⟨⟨-1, -1, -1⟩, ⟨1, 1, 1⟩⟩).1 := by
  have hemp : dynCandidates moverState.ecs "E" = [] := by decide
  have hyp : ∀ oid ∈ dynCandidates moverState.ecs "E",
      ¬((checkDynamicSolid moverState.ecs
          (getEntityAABB ⟨⟨-1, -1, -1⟩, ⟨1, 1, 1⟩⟩ ⟨0, 0, 0⟩)
          (Vec3Utils.subtract ⟨1, 0, 0⟩ ⟨0, 0, 0⟩) oid).hit = true ∧
        (checkDynamicSolid moverState.ecs
          (getEntityAABB ⟨⟨-1, -1, -1⟩, ⟨1, 1, 1⟩⟩ ⟨0, 0, 0⟩)
          (Vec3Utils.subtract ⟨1, 0, 0⟩ ⟨0, 0, 0⟩) oid).distance <
          ((staticSweep moverState ⟨0, 0, 0⟩ ⟨1, 0, 0⟩
            ⟨⟨-1, -1, -1⟩, ⟨1, 1, 1⟩⟩).1).distance) := by
    intro oid hoid
    rw [hemp] at hoid
    exact absurd hoid (List.not_mem_nil oid)
  exact ⟨hyp, (C4_closest_candidate moverState "E" ⟨0, 0, 0⟩ ⟨1, 0, 0⟩
    ⟨⟨-1, -1, -1⟩, ⟨1, 1, 1⟩⟩).2.2 hyp⟩

section C4Tie

lemma tie_hlen_sub :
    Vec3Utils.length (Vec3Utils.subtract ⟨2, 0, 0⟩ ⟨0, 0, 0⟩) = 2 := by
  unfold Vec3Utils.length Vec3Utils.subtract
  dsimp only
  rw [show ((2 : ℝ) - 0) * ((2 : ℝ) - 0) + (0 - 0) * (0 - 0) +
    (0 - 0) * (0 - 0) = 2 ^ 2 by norm_num]
  exact Real.sqrt_sq (by norm_num)

lemma tie_hlen2 : Vec3Utils.length ⟨2, 0, 0⟩ = 2 := by
  unfold Vec3Utils.length
  dsimp only
  rw [show (2 : ℝ) * 2 + 0 * 0 + 0 * 0 = 2 ^ 2 by norm_num]
  exact Real.sqrt_sq (by norm_num)

lemma tie_hsol : EWorld.getContract tieState.ecs "B" "solidity" =
    some (.solidity true none) := rfl

lemma tie_hshape : EWorld.getContract tieState.ecs "B" "shape" =
    some (.shape ⟨⟨-(1 / 2), -(1 / 2), -(1 / 2)⟩, ⟨1 / 2, 1 / 2, 1 / 2⟩⟩
      (some .box)) := rfl

lemma tie_hmob : EWorld.getContract tieState.ecs "B" "mobility" =
    some (.mobility ⟨2, 0, 0⟩ none none none) := rfl

/-- The dynamic candidate `B` of the tie scenario: the swept segment enters
its Minkowski-expanded box at `t = 1/2`, i.e. at distance `1`. -/
lemma tie_dyn :
    checkDynamicSolid tieState.ecs (getEntityAABB tieShape ⟨0, 0, 0⟩)
      (Vec3Utils.subtract ⟨2, 0, 0⟩ ⟨0, 0, 0⟩) "B" =
    ⟨true, ⟨1, 0, 0⟩, ⟨-1, 0, 0⟩, 1, some "B"⟩ := by
  simp only [checkDynamicSolid, tie_hsol, tie_hshape, tie_hmob]
  norm_num [getEntityAABB, intersectSegmentAABB, slabAxis, Vec3Utils.add,
    Vec3Utils.subtract, Vec3Utils.multiply, tieShape, tie_hlen2]

lemma tie_hchunk : (getChunk tieState ⟨"default", 0, 0, 0⟩).1 = tieChunk := by
  decide

/-- The static phase of the tie scenario hits the solid start chunk: the
grid check reports a collision at half the displacement length, i.e. at
distance `1`. -/
lemma tie_static1 :
    (checkStaticSolids tieState (getEntityAABB tieShape ⟨0, 0, 0⟩)
      (Vec3Utils.subtract ⟨2, 0, 0⟩ ⟨0, 0, 0⟩) ⟨"default", 0, 0, 0⟩).1 =
    (⟨true, ⟨3 / 2, -(1 / 2), -(1 / 2)⟩, ⟨0, 1, 0⟩, 1, none⟩ : Collision) := by
  show checkStaticGrid (getChunk tieState ⟨"default", 0, 0, 0⟩).1
    (getEntityAABB tieShape ⟨0, 0, 0⟩)
    (Vec3Utils.subtract ⟨2, 0, 0⟩ ⟨0, 0, 0⟩) =
    (⟨true, ⟨3 / 2, -(1 / 2), -(1 / 2)⟩, ⟨0, 1, 0⟩, 1, none⟩ : Collision)
  rw [tie_hchunk]
  simp only [checkStaticGrid, tieChunk, tieGrid]
  norm_num [getEntityAABB, tieShape, Vec3Utils.add, Vec3Utils.subtract,
    jsMod, jsTrunc]
  rw [show ⌈(-(1 / 512) : ℝ)⌉ = 0 from by norm_num [Int.ceil_eq_iff],
      show ⌈(-(1 / 64) : ℝ)⌉ = 0 from by norm_num [Int.ceil_eq_iff]]
  norm_num [tie_hlen2]
  decide

lemma tie_hstart : keyFromPos "default" (⟨0, 0, 0⟩ : Vec3 ℝ) (CHUNK_SIZE ℝ) =
    ⟨"default", 0, 0, 0⟩ := by
  norm_num [keyFromPos, worldToChunk, CHUNK_SIZE, CHUNK_HEIGHT]

lemma tie_hend : keyFromPos "default" (⟨2, 0, 0⟩ : Vec3 ℝ) (CHUNK_SIZE ℝ) =
    ⟨"default", 0, 0, 0⟩ := by
  norm_num [keyFromPos, worldToChunk, CHUNK_SIZE, CHUNK_HEIGHT]

lemma tie_hlist : getChunksForMovement ⟨0, 0, 0⟩ ⟨2, 0, 0⟩ =
    ⟨"default", 0, 0, 0⟩ :: tieRestKeys := by
  simp only [getChunksForMovement, tie_hstart, tie_hend]
  decide

lemma checkStaticGrid_none_hit (chunk : ChunkData) (m : AABB ℝ) (d : Vec3 ℝ)
    (h : chunk.solidGrid = none) : (checkStaticGrid chunk m d).hit = false := by
  unfold checkStaticGrid
  rw [h]

/-- A static check against a chunk whose grid is absent (every chunk except
the tie chunk, including chunks freshly created by the chunk manager during
the sweep) reports no hit and preserves the absence invariant. -/
lemma staticStep_skip (MA : AABB ℝ) (D : Vec3 ℝ) (key0 : String)
    (σ : MoveState) (k : ChunkKey)
    (hP : ∀ key c, alookup σ.chunks key = some c → key ≠ key0 →
      c.solidGrid = none)
    (hk : ChunkUtils.toString k ≠ key0) :
    ((checkStaticSolids σ MA D k).1).hit = false ∧
    (∀ key c, alookup ((checkStaticSolids σ MA D k).2).chunks key = some c →
      key ≠ key0 → c.solidGrid = none) := by
  cases halo : alookup σ.chunks (ChunkUtils.toString k) with
  | none =>
      have hchunks : ((checkStaticSolids σ MA D k).2).chunks =
          σ.chunks ++
            [(ChunkUtils.toString k, ⟨k, [], false, σ.now, σ.now, 1, none⟩)] := by
        simp only [checkStaticSolids, getChunk, halo]
      have hgrid : ((getChunk σ k).1).solidGrid = none := by
        simp only [getChunk, halo]
      constructor
      · show (checkStaticGrid (getChunk σ k).1 MA D).hit = false
        exact checkStaticGrid_none_hit _ _ _ hgrid
      · intro key c hc hne
        rw [hchunks] at hc
        by_cases hkey : key = ChunkUtils.toString k
        · subst hkey
          rw [alookup_append_self _ _ _ halo] at hc
          obtain rfl : (⟨k, [], false, σ.now, σ.now, 1, none⟩ : ChunkData) = c :=
            Option.some_inj.mp hc
          rfl
        · rw [alookup_append_ne _ _ _ _ hkey] at hc
          exact hP key c hc hne
  | some chunk =>
      have hg : chunk.solidGrid = none := hP _ chunk halo hk
      have hchunks : ((checkStaticSolids σ MA D k).2).chunks =
          aset σ.chunks (ChunkUtils.toString k)
            { chunk with lastAccessed := σ.now } := by
        simp only [checkStaticSolids, getChunk, halo]
      have hgrid : ((getChunk σ k).1).solidGrid = none := by
        simp only [getChunk, halo]
        exact hg
      constructor
      · show (checkStaticGrid (getChunk σ k).1 MA D).hit = false
        exact checkStaticGrid_none_hit _ _ _ hgrid
      · intro key c hc hne
        rw [hchunks] at hc
        by_cases hkey : key = ChunkUtils.toString k
        · subst hkey
          rw [alookup_aset_self] at hc
          obtain rfl : ({ chunk with lastAccessed := σ.now } : ChunkData) = c :=
            Option.some_inj.mp hc
          exact hg
        · rw [alookup_aset_ne _ _ _ _ hkey] at hc
          exact hP key c hc hne

/-- Folding the static check over chunks that are not the tie chunk keeps
the running collision unchanged. -/
lemma tie_static_rest (MA : AABB ℝ) (D : Vec3 ℝ) :
    ∀ (l : List ChunkKey) (col : Collision) (σ : MoveState),
      (∀ k ∈ l, ChunkUtils.toString k ≠ "default:0,0,0") →
      (∀ key c, alookup σ.chunks key = some c → key ≠ "default:0,0,0" →
        c.solidGrid = none) →
      ((l.foldl (fun (acc : Collision × MoveState) chunkKey =>
        (if (checkStaticSolids acc.2 MA D chunkKey).1.hit = true ∧
            (checkStaticSolids acc.2 MA D chunkKey).1.distance < acc.1.distance
          then (checkStaticSolids acc.2 MA D chunkKey).1 else acc.1,
          (checkStaticSolids acc.2 MA D chunkKey).2)) ((col, σ))).1) = col := by
  intro l
  induction l with
  | nil => intro col σ _ _; rfl
  | cons k0 rest ih =>
      intro col σ hgood hP
      rw [List.foldl_cons]
      obtain ⟨hh, hP2⟩ := staticStep_skip MA D "default:0,0,0" σ k0 hP
        (hgood k0 (List.mem_cons_self k0 rest))
      have hnot : ¬((checkStaticSolids σ MA D k0).1.hit = true ∧
          (checkStaticSolids σ MA D k0).1.distance < col.distance) := by
        rintro ⟨h1, h2⟩
        rw [hh] at h1
        exact Bool.noConfusion h1
      dsimp only
      rw [if_neg hnot]
      exact ih col ((checkStaticSolids σ MA D k0).2)
        (fun k hk => hgood k (List.mem_cons_of_mem k0 hk)) hP2

lemma tie_hP0 : ∀ key c, alookup tieState.chunks key = some c →
    key ≠ "default:0,0,0" → c.solidGrid = none := by
  intro key c hc hne
  have hc2 : alookup [("default:0,0,0", tieChunk)] key = some c := hc
  rw [alookup_cons] at hc2
  by_cases hkey : "default:0,0,0" = key
  · exact absurd hkey.symm hne
  · rw [if_neg hkey, alookup_nil] at hc2
    exact absurd hc2 (by simp)

/-- The state after the start chunk's static check still has no solid grid
outside the tie chunk: the chunk manager only refreshed that chunk's
`lastAccessed`. -/
lemma tie_hP1 : ∀ key c, alookup
    ((checkStaticSolids tieState (getEntityAABB tieShape ⟨0, 0, 0⟩)
      (Vec3Utils.subtract ⟨2, 0, 0⟩ ⟨0, 0, 0⟩)
      ⟨"default", 0, 0, 0⟩).2).chunks key = some c →
    key ≠ "default:0,0,0" → c.solidGrid = none := by
  intro key c hc hne
  have hkey0 : ChunkUtils.toString (⟨"default", 0, 0, 0⟩ : ChunkKey) =
      "default:0,0,0" := by decide
  have halo : alookup tieState.chunks
      (ChunkUtils.toString (⟨"default", 0, 0, 0⟩ : ChunkKey)) =
      some tieChunk := by
    rw [hkey0]
    rfl
  have hchunks : ((checkStaticSolids tieState
      (getEntityAABB tieShape ⟨0, 0, 0⟩)
      (Vec3Utils.subtract ⟨2, 0, 0⟩ ⟨0, 0, 0⟩)
      ⟨"default", 0, 0, 0⟩).2).chunks =
      aset tieState.chunks
        (ChunkUtils.toString (⟨"default", 0, 0, 0⟩ : ChunkKey))
        { tieChunk with lastAccessed := tieState.now } := by
    simp only [checkStaticSolids, getChunk, halo]
  rw [hchunks, hkey0] at hc
  rw [alookup_aset_ne _ _ _ _ hne] at hc
  exact tie_hP0 key c hc hne

/-- The static phase of the tie scenario reports the grid hit of the start
chunk: distance `1`, no entity id. -/
lemma tie_staticSweep :
    (staticSweep tieState ⟨0, 0, 0⟩ ⟨2, 0, 0⟩ tieShape).1 =
    (⟨true, ⟨3 / 2, -(1 / 2), -(1 / 2)⟩, ⟨0, 1, 0⟩, 1, none⟩ : Collision) := by
  simp only [staticSweep]
  rw [tie_hlist, List.foldl_cons]
  dsimp only
  rw [tie_static1, tie_hlen_sub]
  rw [if_pos ⟨rfl, by norm_num⟩]
  rw [tie_static_rest (getEntityAABB tieShape ⟨0, 0, 0⟩)
    (Vec3Utils.subtract ⟨2, 0, 0⟩ ⟨0, 0, 0⟩) tieRestKeys
    ⟨true, ⟨3 / 2, -(1 / 2), -(1 / 2)⟩, ⟨0, 1, 0⟩, 1, none⟩
    ((checkStaticSolids tieState (getEntityAABB tieShape ⟨0, 0, 0⟩)
      (Vec3Utils.subtract ⟨2, 0, 0⟩ ⟨0, 0, 0⟩) ⟨"default", 0, 0, 0⟩).2)
    (by decide) tie_hP1]

/-- The full sweep of the tie scenario returns the static collision: the
dynamic candidate `B` hits at exactly the same distance `1`, so the
strict-< replacement keeps the static result. -/
lemma tie_perform :
    (performSweptAABB tieState "M" ⟨0, 0, 0⟩ ⟨2, 0, 0⟩ tieShape).1 =
    (⟨true, ⟨3 / 2, -(1 / 2), -(1 / 2)⟩, ⟨0, 1, 0⟩, 1, none⟩ : Collision) := by
  simp only [performSweptAABB]
  rw [show dynCandidates tieState.ecs "M" = ["B"] from by decide]
  rw [List.foldl_cons, List.foldl_nil]
  rw [tie_dyn, tie_staticSweep]
  have hnot : ¬((⟨true, ⟨1, 0, 0⟩, ⟨-1, 0, 0⟩, 1, some "B"⟩ : Collision).hit =
      true ∧
      (⟨true, ⟨1, 0, 0⟩, ⟨-1, 0, 0⟩, 1, some "B"⟩ : Collision).distance <
      ((⟨true, ⟨3 / 2, -(1 / 2), -(1 / 2)⟩, ⟨0, 1, 0⟩, 1, none⟩ :
        Collision)).distance) := by
    simp
  rw [if_neg hnot]

end C4Tie

/-- C4 counterexample to the claimed tie-break: both phases of the tie
scenario hit at distance exactly 1 (the start chunk's solid grid and the
solid entity `B`), yet the reported collision is the static one — it
carries no entity id, and `blockedReason` is "Blocked by solid" rather
than a reference to `B`. -/
theorem C4_tie_counterexample :
    ((staticSweep tieState ⟨0, 0, 0⟩ ⟨2, 0, 0⟩ tieShape).1).hit = true ∧
    ((staticSweep tieState ⟨0, 0, 0⟩ ⟨2, 0, 0⟩ tieShape).1).distance = 1 ∧
    "B" ∈ dynCandidates tieState.ecs "M" ∧
    (checkDynamicSolid tieState.ecs (getEntityAABB tieShape ⟨0, 0, 0⟩)
      (Vec3Utils.subtract ⟨2, 0, 0⟩ ⟨0, 0, 0⟩) "B").hit = true ∧
    (checkDynamicSolid tieState.ecs (getEntityAABB tieShape ⟨0, 0, 0⟩)
      (Vec3Utils.subtract ⟨2, 0, 0⟩ ⟨0, 0, 0⟩) "B").distance =
      ((staticSweep tieState ⟨0, 0, 0⟩ ⟨2, 0, 0⟩ tieShape).1).distance ∧
    ((performSweptAABB tieState "M" ⟨0, 0, 0⟩ ⟨2, 0, 0⟩ tieShape).1).entityId =
      none ∧
    blockedReasonFor
      (performSweptAABB tieState "M" ⟨0, 0, 0⟩ ⟨2, 0, 0⟩ tieShape).1 =
      "Blocked by solid" := by
  refine ⟨?_, ?_, ?_, ?_, ?_, ?_, ?_⟩
  · rw [tie_staticSweep]
  · rw [tie_staticSweep]
  · decide
  · rw [tie_dyn]
  · rw [tie_dyn, tie_staticSweep]
  · rw [tie_perform]
  · rw [tie_perform]
    rfl

end WorldHost
